import Mathlib

/-! FBCurses: the lifecycle coordinator and the console engine

A shallow embedding of `src/src/threaded_process.{hpp,cpp}` and
`src/src/console.{hpp,cpp}`.

Conventions of the embedding.

* `std::string` is `Str`, a list of characters, one `Char` per byte of the C++ string.
* `size_t` and `uint64_t` values are natural numbers.  The only subtractions on them are
  written out with their wrap-around (`adjust_lines`) or are guarded by the source so that
  they cannot wrap (`remove_character`, `move_index`, `handle_command`).
* Objects that refer to each other (a `ThreadedProcess` holding closures that capture another
  `ThreadedProcess` by reference) live in a `Heap` indexed by object address.
* Closures stored in members are represented by first-order data that is interpreted
  where the source invokes them: `DependentCallback` for the lambda of `add_dependency`,
  `Callback` for command handlers.
* Code that can throw returns an `Outcome`; the recursion `print_line` / `adjust_lines`
  is driven by a fuel argument and reports `out_of_fuel` when it is exhausted.
* The ncurses surface `stdscr`, the wall clock and the hash layout of
  `std::unordered_map` are outside the repository: the surface is a log of the drawing
  calls made, clock readings and the hash layout are arguments.
-/

namespace FBCurses

/-- The type of `std::string` values. -/
abbrev Str := List Char

/-! ## threaded_process.hpp / threaded_process.cpp -/

/-- Address of a `ThreadedProcess` object (its identity, distinct from `_unique_id`). -/
abbrev Addr := Nat

/-- The closure `[&] (const uint64_t input) { this->remove_dependency(input); }` created in
`add_dependency` (threaded_process.cpp:27-28); `owner` is the captured `this`. It is the only
callback the repository ever passes to `add_dependent_callback`. -/
structure DependentCallback where
  owner : Addr
deriving DecidableEq, Repr

/-- Data members of `class ThreadedProcess` (threaded_process.hpp:38-46), the thread handle
and the mutex left out. -/
structure ThreadedProcess where
  _dependencies : List Nat
  _dependent_callbacks : List DependentCallback
  _running : Bool
  _shutdown : Bool
  _deletable : Bool
  _unique_id : Nat
deriving DecidableEq, Repr

namespace ThreadedProcess

/-- Constructor `ThreadedProcess::ThreadedProcess(unique_id)` with the default member
initialisers of the header. -/
def init (unique_id : Nat) : ThreadedProcess :=
  { _dependencies := [], _dependent_callbacks := [], _running := false,
    _shutdown := false, _deletable := false, _unique_id := unique_id }

/-- Accessor `get_unique_id`. -/
def get_unique_id (p : ThreadedProcess) : Nat := p._unique_id

/-- Method `remove_dependency`: `std::find` the id, erase that one element when found. -/
def remove_dependency (p : ThreadedProcess) (process_id : Nat) : ThreadedProcess :=
  { p with _dependencies := p._dependencies.erase process_id }

/-- Method `has_dependencies`. -/
def has_dependencies (p : ThreadedProcess) : Bool :=
  !p._dependencies.isEmpty

/-- Method `is_deletable`. -/
def is_deletable (p : ThreadedProcess) : Bool :=
  p._deletable && !p.has_dependencies

/-- Method `add_dependent_callback`. -/
def add_dependent_callback (p : ThreadedProcess) (callback : DependentCallback) :
    ThreadedProcess :=
  { p with _dependent_callbacks := p._dependent_callbacks ++ [callback] }

/-- Method `can_exit_loop`. -/
def can_exit_loop (p : ThreadedProcess) (control_bool : Bool) : Bool :=
  !control_bool && p._dependencies.isEmpty

/-- Method `shutdown`. -/
def shutdown (p : ThreadedProcess) : ThreadedProcess :=
  { p with _running := false }

end ThreadedProcess

/-- The live `ThreadedProcess` objects, by address. -/
abbrev Heap := Addr → Option ThreadedProcess

/-- Store `p` at address `a`. -/
def Heap.store (h : Heap) (a : Addr) (p : ThreadedProcess) : Heap :=
  fun x => if x = a then some p else h x

/-- Remove the object at address `a`. -/
def Heap.free (h : Heap) (a : Addr) : Heap :=
  fun x => if x = a then none else h x

/-- Call `self.add_dependency(other)` (threaded_process.cpp:19-30). `none` stands for
undefined behaviour: a dead object, or `self` locking its own non-recursive mutex a second
time when it registers the callback on itself. -/
def add_dependency (h : Heap) (self other : Addr) : Option Heap :=
  match h self, h other with
  | some a, some b =>
    if b.get_unique_id ∈ a._dependencies then some h
    else if self = other then none
    else
      some ((h.store self { a with _dependencies := a._dependencies ++ [b.get_unique_id] }).store
        other (b.add_dependent_callback { owner := self }))
  | _, _ => none

/-- Invoke one stored callback with argument `input`: `owner.remove_dependency(input)`.
`none` when the captured reference dangles. -/
def fire (h : Heap) (callback : DependentCallback) (input : Nat) : Option Heap :=
  match h callback.owner with
  | some p => some (h.store callback.owner (p.remove_dependency input))
  | none => none

/-- The loop of the destructor: every callback, in order, called with the id. The second
component records the calls made, in order. -/
def run_callbacks (h : Heap) (input : Nat) :
    List DependentCallback → Option (Heap × List (DependentCallback × Nat))
  | [] => some (h, [])
  | callback :: rest =>
    match fire h callback input with
    | none => none
    | some h1 =>
      match run_callbacks h1 input rest with
      | none => none
      | some (h2, calls) => some (h2, (callback, input) :: calls)

/-- Destructor `ThreadedProcess::~ThreadedProcess` of the object at `self`
(threaded_process.cpp:12-17), after which the object is gone. -/
def destroy (h : Heap) (self : Addr) : Option (Heap × List (DependentCallback × Nat)) :=
  match h self with
  | none => none
  | some p =>
    match run_callbacks h p._unique_id p._dependent_callbacks with
    | none => none
    | some (h1, calls) => some (h1.free self, calls)

/-! ## console.hpp / console.cpp -/

/-- Result of running code that may throw or, in the model, run out of fuel. `thrown`
carries the state at the moment the exception leaves the function. -/
inductive Outcome (σ : Type) where
  | returned (s : σ)
  | thrown (what : Str) (s : σ)
  | out_of_fuel

/-- Sequencing: continue only after a normal return. -/
def Outcome.andThen {σ : Type} (o : Outcome σ) (f : σ → Outcome σ) : Outcome σ :=
  match o with
  | .returned s => f s
  | .thrown what s => .thrown what s
  | .out_of_fuel => .out_of_fuel

/-- Message colour `Message::NORMAL`. -/
def NORMAL : Int := 0
/-- Message colour `Message::HIGHLIGHT`. -/
def HIGHLIGHT : Int := 1
/-- Message colour `Message::ERROR`. -/
def ERROR : Int := 2
/-- Message colour `Message::TIMESTAMP`. -/
def TIMESTAMP : Int := 3
/-- Message colour `Message::INPUT`. -/
def INPUT : Int := 4
/-- End marker `Message::COLOURS_COUNT`. -/
def COLOURS_COUNT : Int := 5

/-- Data members of `class ConsoleInterface::Message` (console.hpp:72-73). -/
structure Message where
  _colour_pairs : List Int
  _strs : List Str
deriving DecidableEq, Repr

/-- Default constructor `Message() = default`; also the state of a `Message` whose two
vectors have been moved from. -/
def Message.empty : Message := { _colour_pairs := [], _strs := [] }

instance : Inhabited Message := ⟨Message.empty⟩

/-- Method `Message::add_chunk` (console.cpp:355-364). -/
def Message.add_chunk (m : Message) (msg : Str) (colour : Int) : Message :=
  if colour ≥ COLOURS_COUNT ∨ colour < NORMAL then
    { _strs := m._strs ++ [msg], _colour_pairs := m._colour_pairs ++ [NORMAL] }
  else
    { _strs := m._strs ++ [msg], _colour_pairs := m._colour_pairs ++ [colour] }

/-- Function `ConsoleWriter::timestamp` (console.cpp:51-65); `time_str` is what `strftime`
wrote for the current time. -/
def timestamp (time_str : Str) (padded : Bool) : Str :=
  if padded then ['['] ++ time_str ++ [']'] else time_str

/-- A command handler, `std::function<std::string(std::string const&)>`. A handler supplied
by the host is a function from the argument text to its return text, or to the exception it
throws; what else such a handler does to the rest of the process is outside the model. The
two lambdas of `add_default_commands` capture the console by reference and are interpreted
against the console state in `run_callback`. -/
inductive Callback where
  | host (f : Str → Except Str Str)
  | commands
  | help

/-- Data members of `struct Command` (console.hpp:30-38). -/
structure Command where
  _description : Str
  _callback : Callback

instance : Inhabited Command := ⟨{ _description := [], _callback := .commands }⟩

/-- One drawing call sequence on the ncurses surface. -/
inductive DrawOp where
  /-- The end of `print_line`: `move(row, 0); clrtoeol(); output.send_message(row, 0)`. -/
  | line (row : Int) (output : Message)
  /-- The loop of `print_separator`: `cols` dashes on `row`. -/
  | separator (row : Int) (cols : Int)
  /-- The body of `print_input_buffer`: `row` cleared, the buffer drawn with the cursor
  cell highlighted. -/
  | input_buffer (row : Int) (buffer : Str) (index : Nat)
deriving DecidableEq, Repr

/-- The ncurses globals `LINES` and `COLS`, which ncurses keeps non-negative. -/
structure Curses where
  LINES : Nat
  COLS : Nat
deriving DecidableEq, Repr

/-- Data members of `class ConsoleInterface` (console.hpp:138-152) on top of its base class.
`_commands` lists the entries of the `std::unordered_map` in its iteration order. The last
two fields are not members: `stdscr` is the log of drawing calls made on the ncurses surface
and `invoked` the log of handler invocations (name looked up, argument passed). -/
structure ConsoleInterface extends ThreadedProcess where
  _message_queue : List Message
  _input_buffer : Str
  _sent_messages : List Message
  _terminal_running : Bool
  _current_index : Nat
  _commands : List (Str × Command)
  stdscr : List DrawOp
  invoked : List (Str × Str)

/-- Constant `ConsoleInterface::MAX_MSG_BUFFER` (console.hpp:136). -/
def MAX_MSG_BUFFER : Nat := 100

/-- Key code `KeyPress::DOWN`. -/
def DOWN : Int := 258
/-- Key code `KeyPress::UP`. -/
def UP : Int := 259
/-- Key code `KeyPress::LEFT`. -/
def LEFT : Int := 260
/-- Key code `KeyPress::RIGHT`. -/
def RIGHT : Int := 261
/-- Key code `KeyPress::BACKSPACE`. -/
def BACKSPACE : Int := 263
/-- Key code `KeyPress::ENTER`. -/
def ENTER : Int := 10
/-- Key code `KeyPress::ESCAPE`. -/
def ESCAPE : Int := 27

/-- The bytes of `ConsoleInterface::_acceptable_characters` (console.cpp:12-14); the pound
sign of the UTF-8 source file is the two bytes 0xC2 0xA3. -/
def _acceptable_characters : Str :=
  (" abcdefghijklmnopqrstuvwxyzABCDEFGHIJKLMNOPQRSTUVWXYZ0123456789!\"" ++
   "\xC2\xA3$%^&*()+-=_[]\x7b\x7d@:;\x27#~?/|.,<>\\").toList

/-- Search `std::string::find(char)`; `none` is `npos`. -/
def find (s : Str) (c : Char) : Option Nat :=
  match s with
  | [] => none
  | x :: xs => if x = c then some 0 else (find xs c).map (· + 1)

/-- Slice `std::string::substr(pos, n)`: throws `std::out_of_range` when `pos > size()`. -/
def substr (s : Str) (pos n : Nat) : Except Str Str :=
  if pos > s.length then .error "std::out_of_range".toList
  else .ok ((s.drop pos).take n)

/-- Conversion of a `size_t` to `int` (two's complement narrowing to 32 bits). -/
def to_int (n : Nat) : Int :=
  ((n : Int) + 2 ^ 31) % 2 ^ 32 - 2 ^ 31

/-- Conversion `static_cast<char>(input)` of a key code: its low byte. -/
def to_char (input : Int) : Char :=
  Char.ofNat (input % 256).toNat

/-- Position in iteration order at which the standard library links the node of a new key,
given the keys already present in iteration order. `std::unordered_map` leaves it to the
hash function and the bucket layout. -/
abbrev Hasher := List Str → Str → Nat

/-- Lookup `_commands.find(key)`; `none` is `end()`. -/
def umap_find (m : List (Str × Command)) (key : Str) : Option Command :=
  match m with
  | [] => none
  | e :: rest => if e.1 = key then some e.2 else umap_find rest key

/-- Assignment `m[key] = value` on the `std::unordered_map`: the value of an existing key is
replaced where it stands, a new key gets its node at the slot the hash layout gives it. -/
def umap_assign (hash : Hasher) (m : List (Str × Command)) (key : Str) (value : Command) :
    List (Str × Command) :=
  match umap_find m key with
  | some _ => m.map (fun e => if e.1 = key then (e.1, value) else e)
  | none =>
    let slot := hash (m.map Prod.fst) key
    m.take slot ++ [(key, value)] ++ m.drop slot

namespace ConsoleInterface

/-- Method `add_message` (console.cpp:149-152). -/
def add_message (c : ConsoleInterface) (message : Message) : ConsoleInterface :=
  { c with _message_queue := c._message_queue ++ [message] }

/-- Function `ConsoleWriter::timestamped_message` (console.cpp:17-31, `DEBUG` is 0), with the
global `_console` being `c`; `now` is the clock reading. -/
def timestamped_message (c : ConsoleInterface) (now : Str) (message : Str) : ConsoleInterface :=
  c.add_message
    ((Message.empty.add_chunk (timestamp now true) TIMESTAMP).add_chunk message NORMAL)

/-- Function `ConsoleWriter::error_message` (console.cpp:33-49, `DEBUG` is 0), with the
global `_console` being `c`; `now` is the clock reading. -/
def error_message (c : ConsoleInterface) (now : Str) (message : Str) : ConsoleInterface :=
  c.add_message
    (((Message.empty.add_chunk (timestamp now true) TIMESTAMP).add_chunk
      "[ERROR]".toList ERROR).add_chunk message NORMAL)

/-- Method `current_buffer_string`. -/
def current_buffer_string (c : ConsoleInterface) : Str := c._input_buffer

/-- Method `save_message` (console.cpp:461-468). -/
def save_message (c : ConsoleInterface) (output : Message) : ConsoleInterface :=
  let sent := c._sent_messages ++ [output]
  if sent.length > MAX_MSG_BUFFER then { c with _sent_messages := sent.tail }
  else { c with _sent_messages := sent }

/-- Method `print_separator` (console.cpp:336-340). -/
def print_separator (t : Curses) (c : ConsoleInterface) : ConsoleInterface :=
  { c with stdscr := c.stdscr ++ [DrawOp.separator ((t.LINES : Int) - 2) t.COLS] }

/-- Method `print_input_buffer` (console.cpp:311-334). -/
def print_input_buffer (t : Curses) (c : ConsoleInterface) : ConsoleInterface :=
  { c with stdscr := c.stdscr ++
      [DrawOp.input_buffer ((t.LINES : Int) - 1) c._input_buffer c._current_index] }

/-- The value `static_cast<size_t>(LINES) - 3` of `adjust_lines`, with its wrap-around. -/
def bottom_row (t : Curses) : Nat :=
  (((t.LINES : Int) - 3) % 2 ^ 64).toNat

/-- The `for` loop of `adjust_lines` over the values of `i` still to run; `pl` is the
recursive call `print_line(line, output, false)`. -/
def adjust_lines_loop (pl : ConsoleInterface → Int → Message → Outcome ConsoleInterface)
    (bottom : Nat) : List Nat → ConsoleInterface → Outcome ConsoleInterface
  | [], c => .returned c
  | i :: rest, c =>
    let index := c._sent_messages.length - i
    (pl c (to_int (bottom - i)) (c._sent_messages.getD index Message.empty)).andThen
      (adjust_lines_loop pl bottom rest)

/-- Body of `adjust_lines` (console.cpp:298-309) over the recursive call `pl`. -/
def adjust_lines_with (pl : ConsoleInterface → Int → Message → Outcome ConsoleInterface)
    (t : Curses) (c : ConsoleInterface) : Outcome ConsoleInterface :=
  let repainted :=
    if c._sent_messages.length ≥ bottom_row t then
      adjust_lines_loop pl (bottom_row t) (List.range' 1 (bottom_row t)) c
    else .returned c
  repainted.andThen (fun c1 => .returned (print_separator t c1))

/-- Method `print_line` (console.cpp:282-296). The definition takes `output` by value (the
declaration in the header names a reference, which `save_message(std::move(output))` could
not bind). When `save_msg` is set, `output` is moved into `_sent_messages` before it is
drawn, and the move constructor of `std::vector` leaves the two vectors it moved from
empty. -/
def print_line : Nat → Curses → ConsoleInterface → Int → Message → Bool →
    Outcome ConsoleInterface
  | 0, _, _, _, _, _ => .out_of_fuel
  | fuel + 1, t, c, line, output, save_msg =>
    let scrolled : Outcome ConsoleInterface :=
      if line ≥ (t.LINES : Int) - 3 then
        adjust_lines_with (fun c1 l m => print_line fuel t c1 l m false) t c
      else .returned c
    let line1 : Int := if line ≥ (t.LINES : Int) - 3 then (t.LINES : Int) - 3 else line
    scrolled.andThen (fun c1 =>
      let c2 := if save_msg then c1.save_message output else c1
      let output1 := if save_msg then Message.empty else output
      .returned { c2 with stdscr := c2.stdscr ++ [DrawOp.line line1 output1] })

/-- Method `adjust_lines` (console.cpp:298-309). -/
def adjust_lines (fuel : Nat) (t : Curses) (c : ConsoleInterface) : Outcome ConsoleInterface :=
  adjust_lines_with (fun c1 l m => print_line fuel t c1 l m false) t c

/-- Method `send_next_message` (console.cpp:182-188). -/
def send_next_message (fuel : Nat) (t : Curses) (c : ConsoleInterface) :
    Outcome ConsoleInterface :=
  match c._message_queue with
  | [] => .returned c
  | front :: _ =>
    (print_line fuel t c (to_int c._sent_messages.length) front true).andThen
      (fun c1 => .returned { c1 with _message_queue := c1._message_queue.tail })

/-- Method `send_shutdown_message` (console.cpp:174-180). -/
def send_shutdown_message (fuel : Nat) (t : Curses) (c : ConsoleInterface) (now : Str) :
    Outcome ConsoleInterface :=
  print_line fuel t c (to_int c._sent_messages.length)
    ((Message.empty.add_chunk (timestamp now true) TIMESTAMP).add_chunk
      "Console shut down.".toList NORMAL) true

/-- The loop of the `commands` lambda (console.cpp:420-426): `i` is the counter, `size`
the value of `_commands.size()`. -/
def commands_loop (size : Nat) : Nat → List (Str × Command) → Str
  | _, [] => []
  | i, cmd :: rest =>
    cmd.1 ++ (if i ≠ size then ", ".toList else []) ++ commands_loop size (i + 1) rest

/-- The `commands` lambda of `add_default_commands` (console.cpp:416-428). -/
def commands_lambda (c : ConsoleInterface) (_arg : Str) : Str :=
  "Commands: ".toList ++ commands_loop c._commands.length 1 c._commands

/-- The `help` lambda of `add_default_commands` (console.cpp:436-453). -/
def help_lambda (c : ConsoleInterface) (cmd_arg : Str) : Str :=
  if cmd_arg.isEmpty then
    ("Type \"help <command>\" for help with that comm" ++
     "and.Type \"commands\" for a list of commands.").toList
  else
    match umap_find c._commands cmd_arg with
    | none =>
      "Command \"".toList ++ cmd_arg ++
        "\" not found, type \"commands\" to list all commands.".toList
    | some cmd => cmd_arg ++ ": ".toList ++ cmd._description

/-- Invocation `_callback(arg)` of a stored handler. -/
def run_callback (c : ConsoleInterface) (callback : Callback) (arg : Str) : Except Str Str :=
  match callback with
  | .host f => f arg
  | .commands => .ok (c.commands_lambda arg)
  | .help => .ok (c.help_lambda arg)

/-- Method `handle_command_result` (console.cpp:386-393). -/
def handle_command_result (c : ConsoleInterface) (now : Str) (result : Str) :
    ConsoleInterface :=
  if !result.isEmpty then c.timestamped_message now result else c

/-- The lookup and the two branches of `handle_command` (console.cpp:375-383), once `cmd`
and `arg` are computed. -/
def dispatch (c : ConsoleInterface) (now : Str) (cmd arg : Str) : Outcome ConsoleInterface :=
  match umap_find c._commands cmd with
  | none =>
    .returned (c.error_message now ("Command \"".toList ++ cmd ++ "\" not found.".toList))
  | some command =>
    let c1 := { c with invoked := c.invoked ++ [(cmd, arg)] }
    match c1.run_callback command._callback arg with
    | .error what => .thrown what c1
    | .ok result => .returned (c1.handle_command_result now result)

/-- The split of `handle_command` (console.cpp:369-374): the pair `(cmd, arg)`, or the
exception of `substr`. -/
def split_command (command : Str) : Except Str (Str × Str) :=
  match find command ' ' with
  | none => .ok (command, [])
  | some pos =>
    match substr command 0 pos, substr command (pos + 1) (command.length - 1) with
    | .ok cmd, .ok arg => .ok (cmd, arg)
    | .error what, _ => .error what
    | _, .error what => .error what

/-- Method `handle_command` (console.cpp:366-384); `now` is the clock reading of the message
it queues. -/
def handle_command (c : ConsoleInterface) (now : Str) (command : Str) :
    Outcome ConsoleInterface :=
  match split_command command with
  | .error what => .thrown what c
  | .ok (cmd, arg) => c.dispatch now cmd arg

/-- Method `add_command`, single name (console.cpp:395-401). -/
def add_command (hash : Hasher) (c : ConsoleInterface) (command_string : Str)
    (command : Command) : ConsoleInterface :=
  { c with _commands := umap_assign hash c._commands command_string command }

/-- Method `add_command`, list of names (console.cpp:403-410). -/
def add_commands (hash : Hasher) (c : ConsoleInterface) (command_strings : List Str)
    (command : Command) : ConsoleInterface :=
  command_strings.foldl (fun c1 name => c1.add_command hash name command) c

/-- Method `add_default_commands` (console.cpp:412-459). -/
def add_default_commands (hash : Hasher) (c : ConsoleInterface) : ConsoleInterface :=
  (c.add_command hash "commands".toList
      { _description := "List all commands".toList, _callback := .commands }).add_command
    hash "help".toList
      { _description := "Type \"help <command>\" for help with that command.".toList,
        _callback := .help }

/-- Constructor `ConsoleInterface::ConsoleInterface` (console.cpp:115-133); `start` only
spawns the render thread. -/
def init (hash : Hasher) (t : Curses) : ConsoleInterface :=
  let c : ConsoleInterface :=
    { toThreadedProcess := ThreadedProcess.init 0
      _message_queue := [], _input_buffer := [], _sent_messages := [],
      _terminal_running := true, _current_index := 0, _commands := [],
      stdscr := [], invoked := [] }
  (print_input_buffer t (print_separator t c)).add_default_commands hash

/-- Method `remove_character` (console.cpp:221-231). -/
def remove_character (t : Curses) (c : ConsoleInterface) : ConsoleInterface :=
  if c._current_index = 0 ∨ c._input_buffer.isEmpty ∨
      c._current_index > c._input_buffer.length then c
  else
    let index := c._current_index - 1
    print_input_buffer t
      { c with _current_index := index, _input_buffer := c._input_buffer.eraseIdx index }

/-- Method `add_character` (console.cpp:249-260). -/
def add_character (c : ConsoleInterface) (input : Char) : ConsoleInterface :=
  if (find _acceptable_characters input).isNone then c
  else if c._current_index ≥ c._input_buffer.length then
    { c with _input_buffer := c._input_buffer ++ [input],
             _current_index := c._current_index + 1 }
  else
    { c with _input_buffer :=
               c._input_buffer.take c._current_index ++ [input] ++
                 c._input_buffer.drop c._current_index,
             _current_index := c._current_index + 1 }

/-- Method `move_index` (console.cpp:262-280). -/
def move_index (c : ConsoleInterface) (direction : Int) : ConsoleInterface :=
  if direction = LEFT then
    if c._current_index ≥ 1 then { c with _current_index := c._current_index - 1 } else c
  else if direction = RIGHT then
    if c._current_index < c._input_buffer.length then
      { c with _current_index := c._current_index + 1 }
    else c
  else c

/-- Method `execute_message` (console.cpp:233-247); `now_echo` and `now_reply` are the clock
readings of the echoed line and of the message `handle_command` queues. -/
def execute_message (fuel : Nat) (t : Curses) (c : ConsoleInterface) (now_echo now_reply : Str) :
    Outcome ConsoleInterface :=
  let ss := c._input_buffer
  let msg :=
    ((Message.empty.add_chunk (timestamp now_echo true) TIMESTAMP).add_chunk
      ">".toList INPUT).add_chunk ss NORMAL
  (print_line fuel t c (to_int c._sent_messages.length) msg true).andThen (fun c1 =>
    (c1.handle_command now_reply ss).andThen (fun c2 =>
      .returned (print_input_buffer t { c2 with _input_buffer := [], _current_index := 0 })))

/-- Method `handle_input` (console.cpp:196-219). -/
def handle_input (fuel : Nat) (t : Curses) (c : ConsoleInterface) (now_echo now_reply : Str)
    (input : Int) : Outcome ConsoleInterface :=
  let handled : Outcome ConsoleInterface :=
    if input = LEFT ∨ input = RIGHT ∨ input = UP ∨ input = DOWN then
      .returned (c.move_index input)
    else if input = BACKSPACE then .returned (c.remove_character t)
    else if input = ENTER then c.execute_message fuel t now_echo now_reply
    else .returned (c.add_character (to_char input))
  handled.andThen (fun c1 => .returned (print_input_buffer t c1))

end ConsoleInterface


/-- Method `shutdown`, inherited from `ThreadedProcess`. -/
def ConsoleInterface.shutdown (c : ConsoleInterface) : ConsoleInterface :=
  { c with toThreadedProcess := c.toThreadedProcess.shutdown }

/-- One call into the console: a key delivered to `handle_input` by the input thread, a
message drained by the render thread, or a call of the host. -/
inductive Op where
  | key (t : Curses) (now_echo now_reply : Str) (input : Int)
  | send_next_message (t : Curses)
  | add_message (message : Message)
  | add_command (command_string : Str) (command : Command)
  | add_commands (command_strings : List Str) (command : Command)
  | shutdown

/-- Effect of one call on the console. -/
def ConsoleInterface.step (hash : Hasher) (fuel : Nat) (c : ConsoleInterface) :
    Op → Outcome ConsoleInterface
  | .key t now_echo now_reply input => c.handle_input fuel t now_echo now_reply input
  | .send_next_message t => c.send_next_message fuel t
  | .add_message message => .returned (c.add_message message)
  | .add_command command_string command => .returned (c.add_command hash command_string command)
  | .add_commands command_strings command =>
    .returned (c.add_commands hash command_strings command)
  | .shutdown => .returned c.shutdown

/-- Effect of a sequence of calls, one after the other; an exception ends the run. -/
def ConsoleInterface.run (hash : Hasher) (fuel : Nat) :
    ConsoleInterface → List Op → Outcome ConsoleInterface
  | c, [] => .returned c
  | c, op :: ops => (c.step hash fuel op).andThen (fun c1 => ConsoleInterface.run hash fuel c1 ops)

/-- The code ran to a return or to an exception, and `P` holds of the state it left. -/
def Outcome.leaves {σ : Type} (P : σ → Prop) : Outcome σ → Prop
  | .returned s => P s
  | .thrown _ s => P s
  | .out_of_fuel => False

open ConsoleInterface

/-- The drawing calls of the repaint loop of `adjust_lines` for scrollback `sent`. -/
def repaint_ops (t : Curses) (sent : List Message) (is : List Nat) : List DrawOp :=
  is.map (fun i =>
    DrawOp.line (to_int (bottom_row t - i)) (sent.getD (sent.length - i) Message.empty))

/-- The drawing calls of one `adjust_lines` call for scrollback `sent`. -/
def adjust_ops (t : Curses) (sent : List Message) : List DrawOp :=
  (if sent.length ≥ bottom_row t then repaint_ops t sent (List.range' 1 (bottom_row t)) else [])
    ++ [DrawOp.separator ((t.LINES : Int) - 2) t.COLS]


/-- The invariant carried along a run: cursor inside the buffer, scrollback within its
capacity. -/
def Inv (c : ConsoleInterface) : Prop :=
  c._current_index ≤ c._input_buffer.length ∧ c._sent_messages.length ≤ MAX_MSG_BUFFER


/-- A host handler that returns its argument unchanged. -/
def echo_command : Command :=
  { _description := "Repeat the argument".toList, _callback := .host (fun arg => .ok arg) }

/-- A host handler that returns the empty string. -/
def quiet_command : Command :=
  { _description := "Say nothing".toList, _callback := .host (fun _ => .ok []) }

/-- A host handler that throws. -/
def failing_command : Command :=
  { _description := "Always fail".toList,
    _callback := .host (fun _ => .error "handler failed".toList) }

/-- A console on a 24 by 80 terminal, new nodes linked at the front of the table, with three
host commands next to the built-in ones: `add` (bound to `echo_command`), `shutdown` (bound to
`quiet_command`) and `boom` (bound to `failing_command`). -/
def sample_console : ConsoleInterface :=
  (((ConsoleInterface.init (fun _ _ => 0) ⟨24, 80⟩).add_command (fun _ _ => 0)
      "add".toList echo_command).add_command (fun _ _ => 0)
      "shutdown".toList quiet_command).add_command (fun _ _ => 0)
      "boom".toList failing_command

/-- The sample console with a scrollback at capacity: 100 empty messages. -/
def full_console : ConsoleInterface :=
  { sample_console with _sent_messages := List.replicate 100 Message.empty }

/-- Lexicographic comparison of two strings by byte value, as `std::string` compares. Used
to state the order the specification asks of the `commands` listing. -/
def spec_lex_le : Str → Str → Bool
  | [], _ => true
  | _ :: _, [] => false
  | a :: as, b :: bs =>
    if a.toNat < b.toNat then true
    else if b.toNat < a.toNat then false
    else spec_lex_le as bs

/-- Insertion of a name into a lexicographically sorted list of names. -/
def spec_insert_name (x : Str) : List Str → List Str
  | [] => [x]
  | y :: ys => if spec_lex_le x y then x :: y :: ys else y :: spec_insert_name x ys

/-- The names in lexicographic order. -/
def spec_sort_names (names : List Str) : List Str :=
  names.foldr spec_insert_name []

/-- The `commands` listing as the specification words it: all registered names, in
lexicographic order. -/
def spec_commands_listing (names : List Str) : Str :=
  "Commands: ".toList ++ ", ".toList.intercalate (spec_sort_names names)

/-- The console as constructed on a 24 by 80 terminal, new nodes linked at the front of the
table: the place where the hash tables of libstdc++ and libc++ link the node of `help` after
that of `commands`. -/
def fresh_console : ConsoleInterface :=
  ConsoleInterface.init (fun _ _ => 0) ⟨24, 80⟩

/-- Registration of a list of (name, command) pairs, one `add_command` call each. -/
def register_all (hash : Hasher) (c : ConsoleInterface) (regs : List (Str × Command)) :
    ConsoleInterface :=
  regs.foldl (fun c1 r => c1.add_command hash r.1 r.2) c

/-- Three freshly constructed processes: `A` at address 0 with id 10, `B` at address 1 with
id 20 and `C` at address 2 with id 7. -/
def three_processes : Heap :=
  fun x =>
    if x = 0 then some (ThreadedProcess.init 10)
    else if x = 1 then some (ThreadedProcess.init 20)
    else if x = 2 then some (ThreadedProcess.init 7)
    else none

/-- The run `A.add_dependency(C); A.add_dependency(B);` followed by the destruction of `B`,
on `three_processes`: the heap it leaves and the callbacks the destructor called. -/
def depend_twice_destroy_one : Option (Heap × List (DependentCallback × Nat)) :=
  (add_dependency three_processes 0 2).bind (fun h1 =>
    (add_dependency h1 0 1).bind (fun h2 => destroy h2 1))

/-- The work-finished flag being set, as the last statement of a run loop does
(`_deletable = true`, console.cpp:163). -/
def ThreadedProcess.finish_work (p : ThreadedProcess) : ThreadedProcess :=
  { p with _deletable := true }

/-- The heap after the callbacks `cbs` have each been called with `input` on heap `g`: every
live object has `remove_dependency(input)` applied once for each callback it owns. -/
def after_callbacks (g : Heap) (input : Nat) (cbs : List DependentCallback) : Heap :=
  fun x => (g x).map
    (fun p => (fun q : ThreadedProcess => q.remove_dependency input)^[cbs.count ⟨x⟩] p)

/-- The message `execute_message` builds for the submitted line `text` (console.cpp:238-241):
the padded timestamp, `>` in the input colour, the line in the normal colour. -/
def echo_message (now : Str) (text : Str) : Message :=
  ((Message.empty.add_chunk (timestamp now true) TIMESTAMP).add_chunk
    ">".toList INPUT).add_chunk text NORMAL

/-- The sample console with `echo` registered as a command that returns its argument, and
the line `echo hello` typed into the input buffer. -/
def echo_console : ConsoleInterface :=
  { sample_console.add_command (fun _ _ => 0) "echo".toList echo_command with
    _input_buffer := "echo hello".toList, _current_index := 10 }

/-- The sample console with `abc` in the input buffer and the cursor after `a`. -/
def typing_console : ConsoleInterface :=
  { sample_console with _input_buffer := "abc".toList, _current_index := 1 }

/-- The inner loop of `run_console` (console.cpp:158-160),
`while (!_message_queue.empty()) send_next_message();`, run for at most `n` iterations. -/
def ConsoleInterface.drain_queue (fuel : Nat) (t : Curses) :
    Nat → ConsoleInterface → Outcome ConsoleInterface
  | 0, c => if c._message_queue.isEmpty then .returned c else .out_of_fuel
  | n + 1, c =>
    if c._message_queue.isEmpty then .returned c
    else (c.send_next_message fuel t).andThen (ConsoleInterface.drain_queue fuel t n)

/-- What the surface shows on `row` after the drawing calls `ops`: the message of the last
`print_line` drawing on that row (which clears the row first), if there was one. -/
def row_content (ops : List DrawOp) (row : Int) : Option Message :=
  ops.reverse.findSome? (fun op =>
    match op with
    | .line r output => if r = row then some output else none
    | _ => none)

/-- The last `n` elements of a list. -/
def keep_last {α : Type} (n : Nat) (l : List α) : List α :=
  l.drop (l.length - n)

/-- A one-chunk message in the normal colour. -/
def plain_message (text : Str) : Message :=
  Message.empty.add_chunk text NORMAL

/-- The message number `k` of a numbered series: its text is the character of code
`48 + k`. -/
def numbered_message (k : Nat) : Message :=
  plain_message [Char.ofNat (48 + k)]

/-- The console as constructed, with the three messages `one`, `two`, `three` enqueued in
that order. -/
def queued_console : ConsoleInterface :=
  ((fresh_console.add_message (plain_message "one".toList)).add_message
    (plain_message "two".toList)).add_message (plain_message "three".toList)

/-- The console as constructed on a terminal of 200 lines, with the 102 messages numbered
0 to 101 enqueued in that order. -/
def tall_console : ConsoleInterface :=
  (List.range 102).foldl (fun c k => c.add_message (numbered_message k))
    (ConsoleInterface.init (fun _ _ => 0) ⟨200, 80⟩)

/-- The `print_line` drawings among the drawing calls `ops`: their rows, in order. -/
def drawn_rows (ops : List DrawOp) : List Int :=
  ops.filterMap (fun op =>
    match op with
    | .line r _ => some r
    | _ => none)

/-- The number of separator drawings among the drawing calls `ops` (one per scroll). -/
def separators_drawn (ops : List DrawOp) : Nat :=
  (ops.filter (fun op =>
    match op with
    | .separator _ _ => true
    | _ => false)).length

/-- The drawing calls a finished run has logged (none if it did not return). -/
def Outcome.drawn (o : Outcome ConsoleInterface) : List DrawOp :=
  match o with
  | .returned s => s.stdscr
  | _ => []

/-- The row `send_next_message` passes on to the drawing calls for its message: the size of
the scrollback, or `LINES - 3` once that size has reached it. -/
def ConsoleInterface.next_row (t : Curses) (c : ConsoleInterface) : Int :=
  if to_int c._sent_messages.length ≥ (t.LINES : Int) - 3 then (t.LINES : Int) - 3
  else to_int c._sent_messages.length

/-- The drawing calls of the scroll `send_next_message` triggers, if it triggers one. -/
def ConsoleInterface.scroll_ops (t : Curses) (c : ConsoleInterface) : List DrawOp :=
  if to_int c._sent_messages.length ≥ (t.LINES : Int) - 3 then adjust_ops t c._sent_messages
  else []

/-- The console as constructed on a terminal of 103 lines (rows 0 to 100 above the two
reserved rows), with the 101 messages numbered 0 to 100 enqueued in that order. -/
def edge_console : ConsoleInterface :=
  (List.range 101).foldl (fun c k => c.add_message (numbered_message k))
    (ConsoleInterface.init (fun _ _ => 0) ⟨103, 80⟩)

/-- What C19 asks of the surface after a scroll, in the words of the claim: the rows 0 to
`LINES - 3` show the most recent `LINES - 2` messages of the scrollback, one per row, the
oldest at the top. -/
def spec_rows_show_latest (t : Curses) (s : ConsoleInterface) : Prop :=
  ∀ r : Nat, r ≤ t.LINES - 3 →
    row_content s.stdscr r = (keep_last (t.LINES - 2) s._sent_messages)[r]?

/-- The state a finished run has left (none if it ran out of fuel). -/
def Outcome.state {σ : Type} (o : Outcome σ) : Option σ :=
  match o with
  | .returned s => some s
  | .thrown _ s => some s
  | .out_of_fuel => none

/-- The state of `edge_console` after 100 of its 101 messages have been drained, if the 100
calls of `send_next_message` return. -/
def edge_before : Option ConsoleInterface :=
  (ConsoleInterface.run (fun _ _ => 0) 2 edge_console
    (List.replicate 100 (Op.send_next_message ⟨103, 80⟩))).state

/-- The state after the call `print_line(100, message 100)` on `edge_before`, the call that
`send_next_message` makes for the last message. -/
def edge_after : Option ConsoleInterface :=
  edge_before.bind (fun c =>
    (ConsoleInterface.print_line 2 ⟨103, 80⟩ c 100 (numbered_message 100) true).state)

/-- A console on a terminal of 6 lines (rows 0 to 3 above the two reserved rows) whose
scrollback holds the four messages numbered 0 to 3. -/
def small_console : ConsoleInterface :=
  { ConsoleInterface.init (fun _ _ => 0) ⟨6, 80⟩ with
    _sent_messages := (List.range 4).map numbered_message }

/-- A `Message` built from the default-constructed one by one `add_chunk` call per
(text, colour) pair, in order. -/
def Message.build (chunks : List (Str × Int)) : Message :=
  chunks.foldl (fun m chunk => m.add_chunk chunk.1 chunk.2) Message.empty

/-- The style tag `add_chunk` stores for the colour it is given. -/
def stored_colour (colour : Int) : Int :=
  if colour ≥ COLOURS_COUNT ∨ colour < NORMAL then NORMAL else colour

/-- The statements of `execute_message` that run before the call of `handle_command`
(console.cpp:234-242): the outcome is the state in which `handle_command` is called. -/
def ConsoleInterface.state_at_dispatch (fuel : Nat) (t : Curses) (c : ConsoleInterface)
    (now_echo : Str) : Outcome ConsoleInterface :=
  ConsoleInterface.print_line fuel t c (to_int c._sent_messages.length)
    (echo_message now_echo c._input_buffer) true

/-- The statements of `execute_message` that run after `handle_command` has returned
(console.cpp:244-246). -/
def ConsoleInterface.reset_input (t : Curses) (c : ConsoleInterface) : ConsoleInterface :=
  ConsoleInterface.print_input_buffer t { c with _input_buffer := [], _current_index := 0 }

/-- The sample console with the line `boom`, whose handler throws, typed into the input
buffer. -/
def boom_console : ConsoleInterface :=
  { sample_console with _input_buffer := "boom".toList, _current_index := 4 }

/-! ## Theorems -/

/-! ### Auxiliary facts on `Outcome`, `print_line` and `adjust_lines` -/

theorem Outcome.leaves_andThen {σ : Type} {P Q : σ → Prop} (o : Outcome σ) (f : σ → Outcome σ)
    (ho : o.leaves P) (hPQ : ∀ s, P s → Q s) (hf : ∀ s, P s → (f s).leaves Q) :
    (o.andThen f).leaves Q := by
  cases o with
  | returned s => exact hf s ho
  | thrown what s => exact hPQ s ho
  | out_of_fuel => exact ho

theorem Outcome.leaves_mono {σ : Type} {P Q : σ → Prop} (o : Outcome σ)
    (ho : o.leaves P) (hPQ : ∀ s, P s → Q s) : o.leaves Q := by
  cases o with
  | returned s => exact hPQ s ho
  | thrown what s => exact hPQ s ho
  | out_of_fuel => exact ho

theorem to_int_bottom_lt (t : Curses) (n i : Nat) (hi : 1 ≤ i) (hb : i ≤ bottom_row t)
    (hn : bottom_row t ≤ n) (hyp : 3 ≤ t.LINES ∨ n < 2 ^ 64 - 3) :
    to_int (bottom_row t - i) < (t.LINES : Int) - 3 := by
  unfold to_int
  unfold bottom_row at *
  omega

theorem print_line_below (fuel : Nat) (t : Curses) (c : ConsoleInterface) (line : Int)
    (m : Message) (h : line < (t.LINES : Int) - 3) :
    print_line (fuel + 1) t c line m false =
      .returned { c with stdscr := c.stdscr ++ [DrawOp.line line m] } := by
  have h1 : ¬ line ≥ (t.LINES : Int) - 3 := by omega
  simp [print_line, h1, Outcome.andThen]

theorem adjust_lines_loop_eq (fuel : Nat) (t : Curses) (is : List Nat) :
    ∀ (c : ConsoleInterface),
      (∀ i ∈ is, to_int (bottom_row t - i) < (t.LINES : Int) - 3) →
      adjust_lines_loop (fun c1 l m => print_line (fuel + 1) t c1 l m false) (bottom_row t) is c =
        .returned { c with stdscr := c.stdscr ++ repaint_ops t c._sent_messages is } := by
  induction is with
  | nil => intro c _; simp [adjust_lines_loop, repaint_ops]
  | cons i rest ih =>
    intro c h
    have hi := h i (List.mem_cons_self _ _)
    have hrest : ∀ j ∈ rest, to_int (bottom_row t - j) < (t.LINES : Int) - 3 :=
      fun j hj => h j (List.mem_cons_of_mem _ hj)
    simp only [adjust_lines_loop]
    rw [print_line_below fuel t c _ _ hi]
    simp only [Outcome.andThen]
    rw [ih _ hrest]
    simp [repaint_ops]

theorem adjust_lines_eq (fuel : Nat) (t : Curses) (c : ConsoleInterface)
    (hyp : 3 ≤ t.LINES ∨ c._sent_messages.length < 2 ^ 64 - 3) :
    adjust_lines (fuel + 1) t c =
      .returned { c with stdscr := c.stdscr ++ adjust_ops t c._sent_messages } := by
  unfold adjust_lines adjust_lines_with adjust_ops
  by_cases hb : c._sent_messages.length ≥ bottom_row t
  · have hall : ∀ i ∈ List.range' 1 (bottom_row t),
        to_int (bottom_row t - i) < (t.LINES : Int) - 3 := by
      intro i hi
      rw [List.mem_range'_1] at hi
      exact to_int_bottom_lt t _ i hi.1 (by omega) hb hyp
    simp only [hb, if_true]
    rw [adjust_lines_loop_eq fuel t _ c hall]
    simp [Outcome.andThen, print_separator]
  · simp [hb, Outcome.andThen, print_separator]

theorem print_line_succ (fuel : Nat) (t : Curses) (c : ConsoleInterface) (line : Int)
    (m : Message) (save_msg : Bool) :
    print_line (fuel + 1) t c line m save_msg =
      ((if line ≥ (t.LINES : Int) - 3 then adjust_lines fuel t c else .returned c).andThen
        (fun c1 =>
          let c2 := if save_msg then c1.save_message m else c1
          .returned { c2 with stdscr := c2.stdscr ++
            [DrawOp.line (if line ≥ (t.LINES : Int) - 3 then (t.LINES : Int) - 3 else line)
              (if save_msg then Message.empty else m)] })) := rfl

theorem print_line_eq (fuel : Nat) (t : Curses) (c : ConsoleInterface) (line : Int)
    (m : Message) (save_msg : Bool)
    (hyp : 3 ≤ t.LINES ∨ c._sent_messages.length < 2 ^ 64 - 3) :
    print_line (fuel + 2) t c line m save_msg =
      .returned
        (let c1 : ConsoleInterface :=
          if line ≥ (t.LINES : Int) - 3 then
            { c with stdscr := c.stdscr ++ adjust_ops t c._sent_messages }
          else c
         let c2 := if save_msg then c1.save_message m else c1
         { c2 with stdscr := c2.stdscr ++
            [DrawOp.line (if line ≥ (t.LINES : Int) - 3 then (t.LINES : Int) - 3 else line)
              (if save_msg then Message.empty else m)] }) := by
  rw [print_line_succ]
  by_cases hl : line ≥ (t.LINES : Int) - 3
  · simp only [hl, if_true, adjust_lines_eq fuel t c hyp, Outcome.andThen]
  · simp only [hl, if_false, Outcome.andThen]

theorem save_message_length_le (c : ConsoleInterface) (m : Message)
    (h : c._sent_messages.length ≤ MAX_MSG_BUFFER) :
    (c.save_message m)._sent_messages.length ≤ MAX_MSG_BUFFER := by
  unfold save_message
  simp only [List.length_append, List.length_singleton]
  split
  · simp only [List.length_tail, List.length_append, List.length_singleton]; omega
  · simp only [List.length_append, List.length_singleton]; omega

theorem save_message_frame (c : ConsoleInterface) (m : Message) :
    (c.save_message m)._input_buffer = c._input_buffer ∧
    (c.save_message m)._current_index = c._current_index := by
  unfold save_message
  dsimp only
  split <;> exact ⟨rfl, rfl⟩

theorem print_line_inv (fuel : Nat) (hf : 2 ≤ fuel) (t : Curses) (c : ConsoleInterface)
    (line : Int) (m : Message) (save_msg : Bool) (h : Inv c) :
    (print_line fuel t c line m save_msg).leaves
      (fun s => Inv s ∧ s._input_buffer = c._input_buffer ∧
        s._current_index = c._current_index) := by
  obtain ⟨k, rfl⟩ : ∃ k, fuel = k + 2 := ⟨fuel - 2, by omega⟩
  have hsz : 3 ≤ t.LINES ∨ c._sent_messages.length < 2 ^ 64 - 3 := by
    right; have := h.2; unfold MAX_MSG_BUFFER at this; omega
  rw [print_line_eq k t c line m save_msg hsz]
  have h1 := h.1
  have h2 := h.2
  simp only [Outcome.leaves, Inv]
  by_cases hl : line ≥ (t.LINES : Int) - 3 <;> cases save_msg <;>
    simp [hl, save_message_frame, save_message_length_le, h1, h2]

theorem handle_command_frame (c : ConsoleInterface) (now command : Str) :
    (c.handle_command now command).leaves
      (fun s => s._input_buffer = c._input_buffer ∧ s._current_index = c._current_index ∧
        s._sent_messages = c._sent_messages) := by
  unfold handle_command
  split
  · exact ⟨rfl, rfl, rfl⟩
  · unfold dispatch
    split
    · exact ⟨rfl, rfl, rfl⟩
    · dsimp only
      split
      · exact ⟨rfl, rfl, rfl⟩
      · unfold handle_command_result
        simp only [Outcome.leaves]
        split <;> exact ⟨rfl, rfl, rfl⟩

theorem move_index_inv (c : ConsoleInterface) (direction : Int) (h : Inv c) :
    Inv (c.move_index direction) := by
  obtain ⟨h1, h2⟩ := h
  unfold move_index Inv
  split_ifs <;> first | (constructor <;> (try dsimp only) <;> omega)

theorem remove_character_inv (t : Curses) (c : ConsoleInterface) (h : Inv c) :
    Inv (c.remove_character t) := by
  obtain ⟨h1, h2⟩ := h
  unfold remove_character Inv
  split_ifs with hc
  · exact ⟨h1, h2⟩
  · simp only [print_input_buffer, List.length_eraseIdx]
    refine ⟨?_, h2⟩
    split_ifs <;> omega

theorem add_character_inv (c : ConsoleInterface) (input : Char) (h : Inv c) :
    Inv (c.add_character input) := by
  obtain ⟨h1, h2⟩ := h
  unfold add_character Inv
  split_ifs <;> constructor <;> (try simp only [List.length_append, List.length_singleton,
    List.length_take, List.length_drop, List.length_cons, List.length_nil]) <;> omega

theorem execute_message_inv (fuel : Nat) (hf : 2 ≤ fuel) (t : Curses) (c : ConsoleInterface)
    (now_echo now_reply : Str) (h : Inv c) :
    (c.execute_message fuel t now_echo now_reply).leaves Inv := by
  unfold execute_message
  dsimp only
  refine Outcome.leaves_andThen _ _ (print_line_inv fuel hf t c _ _ true h)
    (fun s hs => hs.1) (fun s hs => ?_)
  refine Outcome.leaves_andThen _ _ (handle_command_frame s now_reply _) (fun s1 hs1 => ?_)
    (fun s1 hs1 => ?_)
  · exact ⟨by rw [hs1.1, hs1.2.1]; exact hs.1.1, by rw [hs1.2.2]; exact hs.1.2⟩
  · exact ⟨by simp [print_input_buffer], by simp only [print_input_buffer]; rw [hs1.2.2]; exact hs.1.2⟩

theorem handle_input_inv (fuel : Nat) (hf : 2 ≤ fuel) (t : Curses) (c : ConsoleInterface)
    (now_echo now_reply : Str) (input : Int) (h : Inv c) :
    (c.handle_input fuel t now_echo now_reply input).leaves Inv := by
  unfold handle_input
  dsimp only
  refine Outcome.leaves_andThen (P := Inv) _ _ ?_ (fun s hs => hs) (fun s hs => hs)
  split_ifs
  · exact move_index_inv c input h
  · exact remove_character_inv t c h
  · exact execute_message_inv fuel hf t c now_echo now_reply h
  · exact add_character_inv c _ h

theorem send_next_message_inv (fuel : Nat) (hf : 2 ≤ fuel) (t : Curses) (c : ConsoleInterface)
    (h : Inv c) : (c.send_next_message fuel t).leaves Inv := by
  unfold send_next_message
  split
  · exact h
  · exact Outcome.leaves_andThen _ _ (print_line_inv fuel hf t c _ _ true h)
      (fun s hs => hs.1) (fun s hs => hs.1)

theorem step_inv (hash : Hasher) (fuel : Nat) (hf : 2 ≤ fuel) (c : ConsoleInterface) (op : Op)
    (h : Inv c) : (c.step hash fuel op).leaves Inv := by
  cases op with
  | key t now_echo now_reply input => exact handle_input_inv fuel hf t c now_echo now_reply input h
  | send_next_message t => exact send_next_message_inv fuel hf t c h
  | add_message message => exact h
  | add_command command_string command => exact h
  | add_commands command_strings command =>
    show Inv (c.add_commands hash command_strings command)
    unfold add_commands
    induction command_strings generalizing c with
    | nil => exact h
    | cons name rest ih => exact ih _ h
  | shutdown => exact h

theorem run_inv (hash : Hasher) (fuel : Nat) (hf : 2 ≤ fuel) (ops : List Op) :
    ∀ c : ConsoleInterface, Inv c → (ConsoleInterface.run hash fuel c ops).leaves Inv := by
  induction ops with
  | nil => intro c h; exact h
  | cons op rest ih =>
    intro c h
    exact Outcome.leaves_andThen _ _ (step_inv hash fuel hf c op h) (fun s hs => hs)
      (fun s hs => ih s hs)

theorem init_inv (hash : Hasher) (t : Curses) : Inv (ConsoleInterface.init hash t) := by
  simp [ConsoleInterface.init, Inv, add_default_commands, add_command, print_input_buffer,
    print_separator]

/-! ### C1: the cursor stays inside the input buffer -/

/-- C1. From the console as constructed (empty input buffer, cursor 0), after every sequence
of calls into the console, which may deliver any key codes to `handle_input` (left, right,
up, down, backspace, enter or anything else) and interleave them with messages being drained
and commands being registered, the calls have run to a return or ended in a handler's
exception, and the cursor index satisfies `0 ≤ cursor ≤ buffer length`. As the sequence is
arbitrary, this is the state after every event. -/
theorem handle_input_cursor_within_buffer (hash : Hasher) (t : Curses) (fuel : Nat)
    (hfuel : 2 ≤ fuel) (ops : List Op) :
    (ConsoleInterface.run hash fuel (ConsoleInterface.init hash t) ops).leaves
      (fun s => 0 ≤ s._current_index ∧ s._current_index ≤ s._input_buffer.length) :=
  Outcome.leaves_mono _ (run_inv hash fuel hfuel ops _ (init_inv hash t))
    (fun _ hs => ⟨Nat.zero_le _, hs.1⟩)

/-- Witness of C1: the keys `a`, left, backspace, `b`, right, right, enter on a 24-line
terminal. -/
theorem handle_input_cursor_within_buffer_witness :
    (2 : Nat) ≤ 2 ∧
    (ConsoleInterface.run (fun _ _ => 0) 2 (ConsoleInterface.init (fun _ _ => 0) ⟨24, 80⟩)
        [Op.key ⟨24, 80⟩ [] [] 97, Op.key ⟨24, 80⟩ [] [] LEFT, Op.key ⟨24, 80⟩ [] [] BACKSPACE,
         Op.key ⟨24, 80⟩ [] [] 98, Op.key ⟨24, 80⟩ [] [] RIGHT, Op.key ⟨24, 80⟩ [] [] RIGHT,
         Op.key ⟨24, 80⟩ [] [] ENTER]).leaves
      (fun s => 0 ≤ s._current_index ∧ s._current_index ≤ s._input_buffer.length) :=
  ⟨by decide, handle_input_cursor_within_buffer _ _ 2 (by decide) _⟩

/-! ### C2: how `handle_command` splits its line -/

theorem find_none_iff (s : Str) (ch : Char) : find s ch = none ↔ ch ∉ s := by
  induction s with
  | nil => simp [find]
  | cons x xs ih =>
    unfold find
    by_cases hx : x = ch
    · simp [hx]
    · have hx2 : ¬ ch = x := fun h => hx h.symm
      simp [hx, hx2, ih]

theorem find_some (s : Str) (ch : Char) :
    ∀ pos, find s ch = some pos →
      pos < s.length ∧ ch ∉ s.take pos ∧ s = s.take pos ++ ch :: s.drop (pos + 1) ∧
      s.take pos = s.takeWhile (fun x => x != ch) ∧
      s.drop (pos + 1) = (s.dropWhile (fun x => x != ch)).drop 1 := by
  induction s with
  | nil => intro pos h; simp [find] at h
  | cons x xs ih =>
    intro pos h
    unfold find at h
    by_cases hx : x = ch
    · simp only [hx, if_true, Option.some.injEq] at h
      subst h
      simp [hx]
    · simp only [hx, if_false, Option.map_eq_some'] at h
      obtain ⟨q, hq, rfl⟩ := h
      obtain ⟨h1, h2, h3, h4, h5⟩ := ih q hq
      have hx2 : ¬ ch = x := fun h => hx h.symm
      refine ⟨by simp; omega, by simp [hx2, h2], ?_, ?_, ?_⟩
      · simp only [List.take_succ_cons, List.drop_succ_cons, List.cons_append]
        rw [← h3]
      · simp [List.takeWhile_cons, hx, h4]
      · simp [List.dropWhile_cons, hx, h5]

theorem find_none_takeWhile (s : Str) (ch : Char) (h : ch ∉ s) :
    s.takeWhile (fun x => x != ch) = s ∧ (s.dropWhile (fun x => x != ch)).drop 1 = [] := by
  induction s with
  | nil => simp
  | cons x xs ih =>
    have hx : ¬ x = ch := fun e => h (by simp [e])
    have hxs : ch ∉ xs := fun e => h (List.mem_cons_of_mem _ e)
    simp [List.takeWhile_cons, List.dropWhile_cons, hx, ih hxs]

/-- The code's split is the split at the first space: the text before it and the text after
it. -/
theorem split_command_eq (command : Str) :
    split_command command =
      .ok (command.takeWhile (fun x => x != ' '),
           (command.dropWhile (fun x => x != ' ')).drop 1) := by
  unfold split_command
  cases hf : find command ' ' with
  | none =>
    have h := find_none_takeWhile command ' ' ((find_none_iff command ' ').1 hf)
    simp [h.1, h.2]
  | some pos =>
    obtain ⟨h1, _, _, h4, h5⟩ := find_some command ' ' pos hf
    have hlen : (command.drop (pos + 1)).length ≤ command.length - 1 := by
      simp only [List.length_drop]; omega
    have e1 : substr command 0 pos = .ok (command.take pos) := by simp [substr]
    have e2 : substr command (pos + 1) (command.length - 1) = .ok (command.drop (pos + 1)) := by
      have : ¬ pos + 1 > command.length := by omega
      simp only [substr, this, if_false]
      rw [List.take_of_length_le hlen]
    simp only [e1, e2, h4, h5]

theorem dispatch_invoked (c : ConsoleInterface) (now name arg : Str) (k : Command)
    (hk : umap_find c._commands name = some k) :
    (c.dispatch now name arg).leaves (fun s => s.invoked = c.invoked ++ [(name, arg)]) := by
  unfold dispatch
  simp only [hk]
  split
  · rfl
  · unfold handle_command_result
    simp only [Outcome.leaves]
    split <;> rfl

theorem handle_command_eq_dispatch (c : ConsoleInterface) (now command : Str) :
    c.handle_command now command =
      c.dispatch now (command.takeWhile (fun x => x != ' '))
        ((command.dropWhile (fun x => x != ' ')).drop 1) := by
  unfold handle_command
  rw [split_command_eq]

/-- C2. `handle_command` splits every line at its first space: the name it looks up contains
no space, when the line holds a space then name, one space and argument put together give the
line back (so the argument is everything after the first space, interior spaces included),
and when the line holds no space the name is the whole line and the argument is empty.
`add 1 2 3` runs the handler registered as `add` on `1 2 3`, and `shutdown` runs its handler
on the empty argument. -/
theorem handle_command_splits_at_first_space (c : ConsoleInterface) (now command : Str) :
    (∃ name argument,
      split_command command = .ok (name, argument) ∧
      c.handle_command now command = c.dispatch now name argument ∧
      ' ' ∉ name ∧
      (' ' ∈ command → name ++ " ".toList ++ argument = command) ∧
      (' ' ∉ command → name = command ∧ argument = [])) ∧
    (∀ k, umap_find c._commands "add".toList = some k →
      c.handle_command now "add 1 2 3".toList =
        c.dispatch now "add".toList "1 2 3".toList ∧
      (c.handle_command now "add 1 2 3".toList).leaves
        (fun s => s.invoked = c.invoked ++ [("add".toList, "1 2 3".toList)])) ∧
    (∀ k, umap_find c._commands "shutdown".toList = some k →
      c.handle_command now "shutdown".toList = c.dispatch now "shutdown".toList [] ∧
      (c.handle_command now "shutdown".toList).leaves
        (fun s => s.invoked = c.invoked ++ [("shutdown".toList, [])])) := by
  refine ⟨⟨_, _, split_command_eq command, handle_command_eq_dispatch c now command, ?_, ?_, ?_⟩,
    ?_, ?_⟩
  · intro hmem
    have := List.mem_takeWhile_imp hmem
    simp at this
  · intro hmem
    cases hf : find command ' ' with
    | none => exact absurd hmem ((find_none_iff command ' ').1 hf)
    | some pos =>
      obtain ⟨_, _, h3, h4, h5⟩ := find_some command ' ' pos hf
      rw [← h4, ← h5]
      simpa using h3.symm
  · intro hmem
    exact find_none_takeWhile command ' ' hmem
  · intro k hk
    have e : c.handle_command now "add 1 2 3".toList =
        c.dispatch now "add".toList "1 2 3".toList := by
      rw [handle_command_eq_dispatch]; rfl
    exact ⟨e, by rw [e]; exact dispatch_invoked c now _ _ k hk⟩
  · intro k hk
    have e : c.handle_command now "shutdown".toList = c.dispatch now "shutdown".toList [] := by
      rw [handle_command_eq_dispatch]; rfl
    exact ⟨e, by rw [e]; exact dispatch_invoked c now _ _ k hk⟩

/-- Witness of C2 on the sample console, where `add` and `shutdown` are registered. -/
theorem handle_command_splits_at_first_space_witness :
    umap_find sample_console._commands "add".toList = some echo_command ∧
    umap_find sample_console._commands "shutdown".toList = some quiet_command ∧
    (sample_console.handle_command [] "add 1 2 3".toList).leaves
      (fun s => s.invoked = sample_console.invoked ++ [("add".toList, "1 2 3".toList)]) ∧
    (sample_console.handle_command [] "shutdown".toList).leaves
      (fun s => s.invoked = sample_console.invoked ++ [("shutdown".toList, [])]) :=
  ⟨rfl, rfl,
   ((handle_command_splits_at_first_space sample_console [] []).2.1 echo_command rfl).2,
   ((handle_command_splits_at_first_space sample_console [] []).2.2 quiet_command rfl).2⟩

/-! ### C3: the scrollback is bounded and evicts its oldest entry -/

theorem save_messages_length_le (msgs : List Message) :
    ∀ c : ConsoleInterface, c._sent_messages.length ≤ MAX_MSG_BUFFER →
      (msgs.foldl save_message c)._sent_messages.length ≤ MAX_MSG_BUFFER := by
  induction msgs with
  | nil => intro c h; exact h
  | cons m rest ih => intro c h; exact ih _ (save_message_length_le c m h)

/-- C3. Whatever messages are saved one after the other into an empty scrollback, the
scrollback never holds more than 100 of them; and saving into a scrollback that holds 100
messages drops exactly the first one: the other 99 stay in their order, followed by the new
message. -/
theorem save_message_bounded_fifo (c : ConsoleInterface) (msgs : List Message) (m : Message) :
    (msgs.foldl save_message { c with _sent_messages := [] })._sent_messages.length ≤ 100 ∧
    (c._sent_messages.length = 100 →
      (c.save_message m)._sent_messages = c._sent_messages.tail ++ [m] ∧
      (c.save_message m)._sent_messages.length = 100 ∧
      ∀ i, i < 99 → (c.save_message m)._sent_messages[i]? = c._sent_messages[i + 1]?) := by
  refine ⟨save_messages_length_le msgs _ (by simp), ?_⟩
  intro h
  have e : (c.save_message m)._sent_messages = c._sent_messages.tail ++ [m] := by
    unfold save_message
    simp only [List.length_append, List.length_singleton, h, MAX_MSG_BUFFER]
    cases hs : c._sent_messages with
    | nil => rw [hs] at h; simp at h
    | cons x xs => simp
  refine ⟨e, by rw [e]; simp [h], ?_⟩
  intro i hi
  rw [e]
  cases hs : c._sent_messages with
  | nil => rw [hs] at h; simp at h
  | cons x xs =>
    rw [hs] at h
    simp only [List.length_cons] at h
    simp only [List.tail_cons, List.getElem?_cons_succ]
    rw [List.getElem?_append_left (by omega)]

/-- Witness of C3: one more message saved into a scrollback of 100 messages. -/
theorem save_message_bounded_fifo_witness :
    full_console._sent_messages.length = 100 ∧
    (full_console.save_message (Message.empty.add_chunk "new".toList NORMAL))._sent_messages =
      full_console._sent_messages.tail ++ [Message.empty.add_chunk "new".toList NORMAL] :=
  ⟨by simp [full_console],
   ((save_message_bounded_fifo full_console []
      (Message.empty.add_chunk "new".toList NORMAL)).2 (by simp [full_console])).1⟩

/-! ### C4, C5, C6: what `handle_command` does with the name it looked up -/

theorem run_callback_invoked (c : ConsoleInterface) (log : List (Str × Str))
    (callback : Callback) (arg : Str) :
    ({ c with invoked := log } : ConsoleInterface).run_callback callback arg =
      c.run_callback callback arg := by
  cases callback <;> rfl

/-- C4. When the name before the first space of the line is not registered,
`handle_command` returns having queued exactly one more message, whose chunks are the padded
timestamp in the timestamp colour, `[ERROR]` in the error colour and the text
`Command "X" not found.` in the normal colour; no handler has been invoked and the command
table is unchanged. -/
theorem handle_command_unknown_name (c : ConsoleInterface) (now command : Str)
    (hunknown : umap_find c._commands (command.takeWhile (fun x => x != ' ')) = none) :
    ∃ s, c.handle_command now command = .returned s ∧
      s._message_queue = c._message_queue ++
        [{ _colour_pairs := [TIMESTAMP, ERROR, NORMAL],
           _strs := [timestamp now true, "[ERROR]".toList,
             "Command \"".toList ++ command.takeWhile (fun x => x != ' ') ++
               "\" not found.".toList] }] ∧
      s.invoked = c.invoked ∧
      s._commands = c._commands ∧
      s._sent_messages = c._sent_messages ∧
      s._input_buffer = c._input_buffer ∧ s._current_index = c._current_index := by
  rw [handle_command_eq_dispatch]
  unfold dispatch
  simp only [hunknown]
  exact ⟨_, rfl, rfl, rfl, rfl, rfl, rfl, rfl⟩

/-- Witness of C4: the line `zzz` on the sample console. -/
theorem handle_command_unknown_name_witness :
    umap_find sample_console._commands ("zzz".toList.takeWhile (fun x => x != ' ')) = none ∧
    ∃ s, sample_console.handle_command "12:00".toList "zzz".toList = .returned s ∧
      s._message_queue = sample_console._message_queue ++
        [{ _colour_pairs := [TIMESTAMP, ERROR, NORMAL],
           _strs := [timestamp "12:00".toList true, "[ERROR]".toList,
             "Command \"".toList ++ "zzz".toList.takeWhile (fun x => x != ' ') ++
               "\" not found.".toList] }] ∧
      s.invoked = sample_console.invoked ∧
      s._commands = sample_console._commands ∧
      s._sent_messages = sample_console._sent_messages ∧
      s._input_buffer = sample_console._input_buffer ∧
      s._current_index = sample_console._current_index :=
  ⟨rfl, handle_command_unknown_name sample_console "12:00".toList "zzz".toList rfl⟩

/-- C5. When the name before the first space of the line is registered and the handler
returns `result` for the text after that space, `handle_command` returns having invoked the
handler exactly once, with that text, and having queued exactly one message, the padded
timestamp in the timestamp colour followed by `result` in the normal colour, when `result`
is non-empty, and no message when `result` is empty. -/
theorem handle_command_known_name (c : ConsoleInterface) (now command : Str) (k : Command)
    (result : Str)
    (hknown : umap_find c._commands (command.takeWhile (fun x => x != ' ')) = some k)
    (hresult : c.run_callback k._callback ((command.dropWhile (fun x => x != ' ')).drop 1) =
      .ok result) :
    ∃ s, c.handle_command now command = .returned s ∧
      s.invoked = c.invoked ++
        [(command.takeWhile (fun x => x != ' '),
          (command.dropWhile (fun x => x != ' ')).drop 1)] ∧
      (result ≠ [] → s._message_queue = c._message_queue ++
        [{ _colour_pairs := [TIMESTAMP, NORMAL], _strs := [timestamp now true, result] }]) ∧
      (result = [] → s._message_queue = c._message_queue) ∧
      s._commands = c._commands := by
  rw [handle_command_eq_dispatch]
  unfold dispatch
  simp only [hknown, run_callback_invoked, hresult]
  unfold handle_command_result
  cases result with
  | nil => exact ⟨_, rfl, rfl, fun h => absurd rfl h, fun _ => rfl, rfl⟩
  | cons x xs => exact ⟨_, rfl, rfl, fun _ => rfl, fun h => by simp at h, rfl⟩

/-- Witness of C5: the line `add 1 2 3` on the sample console, whose `add` handler returns
its argument. -/
theorem handle_command_known_name_witness :
    umap_find sample_console._commands ("add 1 2 3".toList.takeWhile (fun x => x != ' ')) =
      some echo_command ∧
    ∃ s, sample_console.handle_command "12:00".toList "add 1 2 3".toList = .returned s ∧
      s.invoked = sample_console.invoked ++
        [("add 1 2 3".toList.takeWhile (fun x => x != ' '),
          ("add 1 2 3".toList.dropWhile (fun x => x != ' ')).drop 1)] ∧
      ("1 2 3".toList ≠ [] → s._message_queue = sample_console._message_queue ++
        [{ _colour_pairs := [TIMESTAMP, NORMAL],
           _strs := [timestamp "12:00".toList true, "1 2 3".toList] }]) ∧
      ("1 2 3".toList = [] → s._message_queue = sample_console._message_queue) ∧
      s._commands = sample_console._commands :=
  ⟨rfl, handle_command_known_name sample_console "12:00".toList "add 1 2 3".toList
    echo_command "1 2 3".toList rfl rfl⟩

/-- C6 fails as stated. On the sample console the handler registered as `boom` throws; for
the line `boom`, `handle_command` does not return: the exception propagates, and the message
queue is as empty as before, so that no error message has been queued. The same exception
then leaves `handle_input` when the line is submitted with enter. -/
theorem handle_command_does_not_catch :
    (∃ s, sample_console.handle_command "12:00".toList "boom".toList =
        .thrown "handler failed".toList s ∧ s._message_queue = []) ∧
    (∀ s, sample_console.handle_command "12:00".toList "boom".toList ≠ .returned s) ∧
    (∃ s, ({ sample_console with _input_buffer := "boom".toList, _current_index := 4 } :
        ConsoleInterface).handle_input 2 ⟨24, 80⟩ "12:00".toList "12:00".toList ENTER =
        .thrown "handler failed".toList s ∧ s._message_queue = []) := by
  have e : sample_console.handle_command "12:00".toList "boom".toList =
      .thrown "handler failed".toList
        { sample_console with invoked := sample_console.invoked ++ [("boom".toList, [])] } := rfl
  refine ⟨⟨_, e, rfl⟩, ?_, ⟨_, rfl, rfl⟩⟩
  intro s h
  rw [e] at h
  cases h

/-! ### C7: the listing of the `commands` command -/

theorem umap_find_none_iff (m : List (Str × Command)) (key : Str) :
    umap_find m key = none ↔ key ∉ m.map Prod.fst := by
  induction m with
  | nil => simp [umap_find]
  | cons e rest ih =>
    unfold umap_find
    by_cases he : e.1 = key
    · simp [he]
    · have he2 : ¬ key = e.1 := fun h => he h.symm
      simp [he, he2, ih]

theorem umap_assign_keys_present (hash : Hasher) (m : List (Str × Command)) (key : Str)
    (value : Command) (h : key ∈ m.map Prod.fst) :
    (umap_assign hash m key value).map Prod.fst = m.map Prod.fst := by
  unfold umap_assign
  cases hf : umap_find m key with
  | none => exact absurd h ((umap_find_none_iff m key).1 hf)
  | some k =>
    simp only [List.map_map]
    apply List.map_congr_left
    intro e _
    by_cases he : e.1 = key <;> simp [he]

theorem umap_assign_keys_absent (hash : Hasher) (m : List (Str × Command)) (key : Str)
    (value : Command) (h : key ∉ m.map Prod.fst) :
    (umap_assign hash m key value).map Prod.fst =
      (m.map Prod.fst).take (hash (m.map Prod.fst) key) ++ key ::
        (m.map Prod.fst).drop (hash (m.map Prod.fst) key) := by
  unfold umap_assign
  rw [(umap_find_none_iff m key).2 h]
  simp [List.map_take, List.map_drop]

theorem umap_assign_keys (hash : Hasher) (m : List (Str × Command)) (key : Str)
    (value : Command) (hm : (m.map Prod.fst).Nodup) :
    ((umap_assign hash m key value).map Prod.fst).Nodup ∧
    ∀ n, n ∈ (umap_assign hash m key value).map Prod.fst ↔ n = key ∨ n ∈ m.map Prod.fst := by
  by_cases h : key ∈ m.map Prod.fst
  · rw [umap_assign_keys_present hash m key value h]
    refine ⟨hm, fun n => ⟨fun hn => Or.inr hn, fun hn => ?_⟩⟩
    rcases hn with rfl | hn
    · exact h
    · exact hn
  · rw [umap_assign_keys_absent hash m key value h]
    have hp : List.Perm
        ((m.map Prod.fst).take (hash (m.map Prod.fst) key) ++ key ::
          (m.map Prod.fst).drop (hash (m.map Prod.fst) key))
        (key :: m.map Prod.fst) := by
      have := @List.perm_middle _ key ((m.map Prod.fst).take (hash (m.map Prod.fst) key))
        ((m.map Prod.fst).drop (hash (m.map Prod.fst) key))
      rwa [List.take_append_drop] at this
    refine ⟨hp.nodup_iff.2 (List.nodup_cons.2 ⟨h, hm⟩), fun n => ?_⟩
    rw [hp.mem_iff, List.mem_cons]

theorem register_all_keys (hash : Hasher) (regs : List (Str × Command)) :
    ∀ c : ConsoleInterface, (c._commands.map Prod.fst).Nodup →
      ((register_all hash c regs)._commands.map Prod.fst).Nodup ∧
      ∀ n, n ∈ (register_all hash c regs)._commands.map Prod.fst ↔
        n ∈ c._commands.map Prod.fst ∨ n ∈ regs.map Prod.fst := by
  induction regs with
  | nil => intro c hc; exact ⟨hc, fun n => by simp [register_all]⟩
  | cons r rest ih =>
    intro c hc
    have h1 := umap_assign_keys hash c._commands r.1 r.2 hc
    have h2 := ih (c.add_command hash r.1 r.2) h1.1
    refine ⟨h2.1, fun n => ?_⟩
    have h3 := h2.2 n
    have h4 := h1.2 n
    simp only [register_all, List.foldl_cons] at h3 ⊢
    simp only [add_command] at h3 h4 ⊢
    rw [h3, h4]
    simp only [List.map_cons, List.mem_cons]
    tauto

theorem commands_loop_eq (size : Nat) (m : List (Str × Command)) :
    ∀ i, i + m.length = size + 1 →
      commands_loop size i m = ", ".toList.intercalate (m.map Prod.fst) := by
  induction m with
  | nil => intro i _; simp [commands_loop, List.intercalate]
  | cons e rest ih =>
    intro i hi
    cases rest with
    | nil =>
      have : i = size := by simpa using hi
      simp [commands_loop, List.intercalate, this]
    | cons e2 rest2 =>
      have hne : i ≠ size := by simp only [List.length_cons] at hi; omega
      have h2 := ih (i + 1) (by simp only [List.length_cons] at hi ⊢; omega)
      rw [commands_loop, h2]
      simp [List.intercalate, hne]

theorem commands_lambda_eq (c : ConsoleInterface) (arg : Str) :
    c.commands_lambda arg =
      "Commands: ".toList ++ ", ".toList.intercalate (c._commands.map Prod.fst) := by
  unfold commands_lambda
  rw [commands_loop_eq _ _ 1 (by omega)]

theorem init_keys (hash : Hasher) (t : Curses) :
    ((ConsoleInterface.init hash t)._commands.map Prod.fst).Nodup ∧
    ∀ n, n ∈ (ConsoleInterface.init hash t)._commands.map Prod.fst ↔
      n = "commands".toList ∨ n = "help".toList := by
  have h := register_all_keys hash
    [("commands".toList, { _description := "List all commands".toList, _callback := .commands }),
     ("help".toList,
       { _description := "Type \"help <command>\" for help with that command.".toList,
         _callback := .help })]
    (print_input_buffer t (print_separator t
      { toThreadedProcess := ThreadedProcess.init 0
        _message_queue := [], _input_buffer := [], _sent_messages := [],
        _terminal_running := true, _current_index := 0, _commands := [],
        stdscr := [], invoked := [] })) (by simp [print_input_buffer, print_separator])
  refine ⟨h.1, fun n => ?_⟩
  have h2 := h.2 n
  simp only [print_input_buffer, print_separator, List.map_nil, List.not_mem_nil, false_or,
    List.map_cons, List.mem_cons, or_false] at h2
  exact h2

/-- C7, as the code behaves. Whatever the hash layout and whatever commands are registered
after construction, in whatever order, the text returned by the `commands` lambda is
`Commands: ` followed by the registered names separated by `, `, in the iteration order of
the command table: each name that was registered (the two built-in names included) is
listed exactly once and no other name is listed. The code does not sort the names. -/
theorem commands_lists_names_in_table_order (hash : Hasher) (t : Curses)
    (regs : List (Str × Command)) (arg : Str) :
    (register_all hash (ConsoleInterface.init hash t) regs).commands_lambda arg =
      "Commands: ".toList ++ ", ".toList.intercalate
        ((register_all hash (ConsoleInterface.init hash t) regs)._commands.map Prod.fst) ∧
    ((register_all hash (ConsoleInterface.init hash t) regs)._commands.map Prod.fst).Nodup ∧
    ∀ n, n ∈ (register_all hash (ConsoleInterface.init hash t) regs)._commands.map Prod.fst ↔
      (n = "commands".toList ∨ n = "help".toList) ∨ n ∈ regs.map Prod.fst := by
  have h := register_all_keys hash regs (ConsoleInterface.init hash t) (init_keys hash t).1
  refine ⟨commands_lambda_eq _ arg, h.1, fun n => ?_⟩
  rw [h.2 n, (init_keys hash t).2 n]

/-- C7 fails as stated. On the console as constructed, whose table links the node of `help`
in front of that of `commands`, the `commands` lambda returns `Commands: help, commands`,
which is not the lexicographic listing `Commands: commands, help`; and registering `a` then
`b` gives another text than registering `b` then `a`, though the names held are the same. -/
theorem commands_listing_not_alphabetical :
    fresh_console.commands_lambda [] = "Commands: help, commands".toList ∧
    fresh_console.commands_lambda [] ≠
      spec_commands_listing (fresh_console._commands.map Prod.fst) ∧
    (register_all (fun _ _ => 0) fresh_console
        [("a".toList, echo_command), ("b".toList, echo_command)]).commands_lambda [] =
      "Commands: b, a, help, commands".toList ∧
    (register_all (fun _ _ => 0) fresh_console
        [("b".toList, echo_command), ("a".toList, echo_command)]).commands_lambda [] =
      "Commands: a, b, help, commands".toList := by
  refine ⟨by decide, by decide, by decide, by decide⟩

/-! ### C8, C9, C10: the lifecycle coordinator -/

theorem is_deletable_true_iff (p : ThreadedProcess) :
    p.is_deletable = true ↔ p._deletable = true ∧ p._dependencies = [] := by
  unfold ThreadedProcess.is_deletable ThreadedProcess.has_dependencies
  cases p._dependencies <;> simp

/-- C8. In every state of a component, `is_deletable()` returns true exactly when the
work-finished flag `_deletable` is set and the dependency set is empty. -/
theorem is_deletable_iff_finished_and_no_dependencies (p : ThreadedProcess) :
    p.is_deletable = true ↔ p._deletable = true ∧ p._dependencies = [] :=
  is_deletable_true_iff p

theorem erase_eq_filter_of_nodup (l : List Nat) (a : Nat) (h : l.Nodup) :
    l.erase a = l.filter (fun x => x != a) := by
  induction l with
  | nil => rfl
  | cons x xs ih =>
    have hx := List.nodup_cons.1 h
    by_cases hxa : x = a
    · subst hxa
      simp only [List.erase_cons_head, bne_self_eq_false, Bool.false_eq_true,
        not_false_eq_true, List.filter_cons_of_neg]
      rw [List.filter_eq_self.2]
      intro y hy
      have : y ≠ x := fun e => hx.1 (e ▸ hy)
      simpa using this
    · have hb : (x == a) = false := by simpa using hxa
      rw [List.erase_cons_tail (by simp [hb]), ih hx.2]
      simp [hxa]

/-- C10. On a dependency set (a vector without repeated ids, which is what `add_dependency`
builds), `remove_dependency(id)` leaves exactly the other ids, in their order, and touches
no other member; when the id is absent the state is unchanged; and a second
`remove_dependency(id)` in a row changes nothing more. -/
theorem remove_dependency_removes_only_id (p : ThreadedProcess) (id : Nat)
    (hset : p._dependencies.Nodup) :
    (p.remove_dependency id)._dependencies = p._dependencies.filter (fun x => x != id) ∧
    id ∉ (p.remove_dependency id)._dependencies ∧
    (∀ other, other ≠ id →
      (other ∈ (p.remove_dependency id)._dependencies ↔ other ∈ p._dependencies)) ∧
    (p.remove_dependency id)._dependent_callbacks = p._dependent_callbacks ∧
    (p.remove_dependency id)._running = p._running ∧
    (p.remove_dependency id)._shutdown = p._shutdown ∧
    (p.remove_dependency id)._deletable = p._deletable ∧
    (p.remove_dependency id)._unique_id = p._unique_id ∧
    (id ∉ p._dependencies → p.remove_dependency id = p) ∧
    (p.remove_dependency id).remove_dependency id = p.remove_dependency id := by
  have e : (p.remove_dependency id)._dependencies =
      p._dependencies.filter (fun x => x != id) := erase_eq_filter_of_nodup _ _ hset
  have hnot : id ∉ (p.remove_dependency id)._dependencies := by
    rw [e]; simp
  refine ⟨e, hnot, ?_, rfl, rfl, rfl, rfl, rfl, ?_, ?_⟩
  · intro other hne
    rw [e]
    simp [hne]
  · intro habs
    unfold ThreadedProcess.remove_dependency
    rw [List.erase_of_not_mem habs]
  · have : (p.remove_dependency id)._dependencies.erase id =
        (p.remove_dependency id)._dependencies := List.erase_of_not_mem hnot
    show ({ p.remove_dependency id with
      _dependencies := (p.remove_dependency id)._dependencies.erase id } : ThreadedProcess) = _
    rw [this]

/-- Witness of C10: the id 7 removed from the dependency set 3, 7, 9. -/
theorem remove_dependency_removes_only_id_witness :
    ({ ThreadedProcess.init 1 with _dependencies := [3, 7, 9] } :
      ThreadedProcess)._dependencies.Nodup ∧
    (({ ThreadedProcess.init 1 with _dependencies := [3, 7, 9] } :
      ThreadedProcess).remove_dependency 7)._dependencies = [3, 9] :=
  ⟨by decide,
   (remove_dependency_removes_only_id
     { ThreadedProcess.init 1 with _dependencies := [3, 7, 9] } 7 (by decide)).1⟩

theorem add_dependency_nodup (h h1 : Heap) (self other : Addr) (a : ThreadedProcess)
    (ha : h self = some a) (hset : a._dependencies.Nodup)
    (hadd : add_dependency h self other = some h1) :
    ∃ a1, h1 self = some a1 ∧ a1._dependencies.Nodup := by
  unfold add_dependency at hadd
  rw [ha] at hadd
  cases hb : h other with
  | none => rw [hb] at hadd; simp at hadd
  | some b =>
    rw [hb] at hadd
    simp only at hadd
    split_ifs at hadd with h1' h2'
    · cases hadd; exact ⟨a, ha, hset⟩
    · cases hadd
      refine ⟨{ a with _dependencies := a._dependencies ++ [b.get_unique_id] },
        by simp [Heap.store, h2'], ?_⟩
      show (a._dependencies ++ [b.get_unique_id]).Nodup
      rw [List.nodup_append]
      refine ⟨hset, List.nodup_singleton _, ?_⟩
      intro x hx hx2
      rw [List.mem_singleton] at hx2
      exact h1' (hx2 ▸ hx)

theorem run_callbacks_eq (id : Nat) (cbs : List DependentCallback) :
    ∀ g : Heap, (∀ cb ∈ cbs, (g cb.owner).isSome = true) →
      run_callbacks g id cbs =
        some (after_callbacks g id cbs, cbs.map (fun cb => (cb, id))) := by
  unfold after_callbacks
  induction cbs with
  | nil =>
    intro g _
    simp only [run_callbacks, List.count_nil, Function.iterate_zero, id_eq, List.map_nil]
    congr 2
    funext x
    cases g x <;> rfl
  | cons cb rest ih =>
    intro g hlive
    obtain ⟨p, hp⟩ := Option.isSome_iff_exists.1 (hlive cb (List.mem_cons_self _ _))
    have hfire : fire g cb id = some (g.store cb.owner (p.remove_dependency id)) := by
      simp [fire, hp]
    have hlive1 : ∀ cb1 ∈ rest,
        ((g.store cb.owner (p.remove_dependency id)) cb1.owner).isSome = true := by
      intro cb1 h1
      unfold Heap.store
      split_ifs
      · rfl
      · exact hlive cb1 (List.mem_cons_of_mem _ h1)
    simp only [run_callbacks, hfire, ih _ hlive1, List.map_cons]
    congr 2
    funext x
    by_cases hx : x = cb.owner
    · subst hx
      have hc : (cb :: rest).count ⟨cb.owner⟩ = rest.count ⟨cb.owner⟩ + 1 := by
        simp [List.count_cons]
      rw [hc, hp]
      simp [Heap.store, Function.iterate_succ_apply]
    · have hne : ¬ cb = ⟨x⟩ := fun e => hx (by rw [e])
      have hc : (cb :: rest).count ⟨x⟩ = rest.count ⟨x⟩ := by
        simp [List.count_cons, hne]
      rw [hc]
      simp [Heap.store, hx]

theorem iterate_remove_after_add (a : ThreadedProcess) (id n : Nat) (hn : 1 ≤ n)
    (hid : id ∉ a._dependencies) :
    (fun q : ThreadedProcess => q.remove_dependency id)^[n]
      { a with _dependencies := a._dependencies ++ [id] } = a := by
  obtain ⟨k, rfl⟩ : ∃ k, n = k + 1 := ⟨n - 1, by omega⟩
  rw [Function.iterate_succ_apply]
  have e : ({ a with _dependencies := a._dependencies ++ [id] } :
      ThreadedProcess).remove_dependency id = a := by
    unfold ThreadedProcess.remove_dependency
    simp only
    rw [List.erase_append_right _ hid]
    simp
  rw [e]
  induction k with
  | zero => rfl
  | succ k ih =>
    rw [Function.iterate_succ_apply]
    have e2 : a.remove_dependency id = a := by
      unfold ThreadedProcess.remove_dependency
      rw [List.erase_of_not_mem hid]
    rw [e2]
    exact ih (by omega)

/-- C9, as the code behaves. Let `A` and `B` be two distinct live components, `B`'s id not yet
in `A`'s dependency set, every callback already registered on `B` having a live owner.
After `A.add_dependency(B)`, `A.has_dependencies()` is true and `A.is_deletable()` is false,
also once `A`'s work-finished flag is set. When `B` is then destroyed, its destructor calls
each registered callback exactly once with `B`'s id, in registration order, the one `A`
registered being the last; `B` is gone and `A` is back in the state it had before the call:
`B`'s id is removed and every other dependency is kept. `A.is_deletable()` is then true once
`A`'s work-finished flag is set exactly when `A` has no other dependency. -/
theorem add_dependency_then_destroy (h : Heap) (a b : Addr) (A B : ThreadedProcess)
    (hA : h a = some A) (hB : h b = some B) (hab : a ≠ b)
    (hnew : B._unique_id ∉ A._dependencies)
    (hlive : ∀ cb ∈ B._dependent_callbacks, (h cb.owner).isSome = true) :
    ∃ h1 A1, add_dependency h a b = some h1 ∧ h1 a = some A1 ∧
      A1.has_dependencies = true ∧ A1.is_deletable = false ∧
      A1.finish_work.is_deletable = false ∧
      ∃ h2, destroy h1 b =
          some (h2, (B._dependent_callbacks ++ [DependentCallback.mk a]).map
            (fun cb => (cb, B._unique_id))) ∧
        h2 b = none ∧ h2 a = some A ∧
        (A.finish_work.is_deletable = true ↔ A._dependencies = []) := by
  obtain ⟨h1, hh1⟩ : ∃ h1 : Heap, h1 =
      (h.store a { A with _dependencies := A._dependencies ++ [B._unique_id] }).store b
        (B.add_dependent_callback ⟨a⟩) := ⟨_, rfl⟩
  have hadd : add_dependency h a b = some h1 := by
    unfold add_dependency
    rw [hA, hB, hh1]
    simp only [ThreadedProcess.get_unique_id]
    rw [if_neg hnew, if_neg hab]
  have hb1 : h1 b = some (B.add_dependent_callback ⟨a⟩) := by
    rw [hh1]; simp [Heap.store]
  have ha1 : h1 a = some { A with _dependencies := A._dependencies ++ [B._unique_id] } := by
    rw [hh1]; simp [Heap.store, hab]
  have hlive1 : ∀ cb ∈ B._dependent_callbacks ++ [DependentCallback.mk a],
      (h1 cb.owner).isSome = true := by
    intro cb hcb
    rw [hh1]
    unfold Heap.store
    split_ifs
    · rfl
    · rfl
    · rcases List.mem_append.1 hcb with h2 | h2
      · exact hlive cb h2
      · rw [List.mem_singleton] at h2
        subst h2
        simp [hA]
  have hrun := run_callbacks_eq B._unique_id _ h1 hlive1
  have hcount : 1 ≤ (B._dependent_callbacks ++ [DependentCallback.mk a]).count ⟨a⟩ := by
    rw [List.count_append]
    simp
  refine ⟨h1, { A with _dependencies := A._dependencies ++ [B._unique_id] }, hadd, ha1,
    ?_, ?_, ?_, ?_⟩
  · simp [ThreadedProcess.has_dependencies]
  · simp [ThreadedProcess.is_deletable, ThreadedProcess.has_dependencies]
  · simp [ThreadedProcess.is_deletable, ThreadedProcess.has_dependencies,
      ThreadedProcess.finish_work]
  · refine ⟨(after_callbacks h1 B._unique_id
      (B._dependent_callbacks ++ [DependentCallback.mk a])).free b, ?_, ?_, ?_, ?_⟩
    · unfold destroy
      rw [hb1]
      simp only [ThreadedProcess.add_dependent_callback]
      rw [hrun]
    · simp [Heap.free]
    · simp only [Heap.free, after_callbacks, if_neg hab, ha1, Option.map_some']
      rw [iterate_remove_after_add A _ _ hcount hnew]
    · rw [is_deletable_true_iff]
      simp [ThreadedProcess.finish_work]
/-- Witness of the amended C9: `A` (address 0, id 10) takes a dependency on `B` (address 1,
id 20) among three fresh processes. -/
theorem add_dependency_then_destroy_witness :
    three_processes 0 = some (ThreadedProcess.init 10) ∧
    three_processes 1 = some (ThreadedProcess.init 20) ∧
    ∃ h1 A1, add_dependency three_processes 0 1 = some h1 ∧ h1 0 = some A1 ∧
      A1.has_dependencies = true ∧ A1.is_deletable = false ∧
      A1.finish_work.is_deletable = false ∧
      ∃ h2, destroy h1 1 =
          some (h2, ((ThreadedProcess.init 20)._dependent_callbacks ++
            [DependentCallback.mk 0]).map
            (fun cb => (cb, (ThreadedProcess.init 20)._unique_id))) ∧
        h2 1 = none ∧ h2 0 = some (ThreadedProcess.init 10) ∧
        ((ThreadedProcess.init 10).finish_work.is_deletable = true ↔
          (ThreadedProcess.init 10)._dependencies = []) :=
  ⟨rfl, rfl,
   add_dependency_then_destroy three_processes 0 1 (ThreadedProcess.init 10)
     (ThreadedProcess.init 20) rfl rfl (by decide) (by simp [ThreadedProcess.init])
     (by simp [ThreadedProcess.init])⟩

/-- C9 fails as stated. `A` (id 10) takes a dependency on `C` (id 7) and then on `B`
(id 20); `B` is destroyed, which calls the one callback registered on it, with `B`'s id;
`A` still holds its dependency on `C`, and with its work-finished flag set
`A.is_deletable()` is false. -/
theorem is_deletable_false_after_destroy :
    depend_twice_destroy_one.map Prod.snd = some [(DependentCallback.mk 0, 20)] ∧
    (depend_twice_destroy_one.bind (fun r => r.1 0)).map
        (fun A => (A._dependencies, A._deletable, A.finish_work.is_deletable)) =
      some ([7], false, false) ∧
    (depend_twice_destroy_one.bind (fun r => r.1 1)) = none := by
  refine ⟨by decide, by decide, by decide⟩

/-! ### C12: submission of the input line -/

theorem save_message_fields (c : ConsoleInterface) (m : Message) :
    (c.save_message m)._message_queue = c._message_queue ∧
    (c.save_message m)._commands = c._commands ∧
    (c.save_message m).invoked = c.invoked ∧
    (c.save_message m).stdscr = c.stdscr := by
  unfold save_message
  dsimp only
  split <;> exact ⟨rfl, rfl, rfl, rfl⟩

theorem save_message_sent_of_stdscr (c : ConsoleInterface) (m : Message) (ops : List DrawOp) :
    (({ c with stdscr := ops } : ConsoleInterface).save_message m)._sent_messages =
      (c.save_message m)._sent_messages := by
  unfold save_message
  dsimp only
  split <;> rfl

theorem print_line_save_fields (fuel : Nat) (hf : 2 ≤ fuel) (t : Curses) (c : ConsoleInterface)
    (line : Int) (m : Message)
    (hyp : 3 ≤ t.LINES ∨ c._sent_messages.length < 2 ^ 64 - 3) :
    ∃ c1, print_line fuel t c line m true = .returned c1 ∧
      c1._sent_messages = (c.save_message m)._sent_messages ∧
      c1._input_buffer = c._input_buffer ∧ c1._current_index = c._current_index ∧
      c1._message_queue = c._message_queue ∧ c1._commands = c._commands ∧
      c1.invoked = c.invoked := by
  obtain ⟨k, rfl⟩ : ∃ k, fuel = k + 2 := ⟨fuel - 2, by omega⟩
  rw [print_line_eq k t c line m true hyp]
  refine ⟨_, rfl, ?_⟩
  by_cases hl : line ≥ (t.LINES : Int) - 3
  · simp [hl, save_message_frame, save_message_fields, save_message_sent_of_stdscr]
  · simp [hl, save_message_frame, save_message_fields]

theorem dispatch_known_ok (c : ConsoleInterface) (now name arg result : Str) (k : Command)
    (hk : umap_find c._commands name = some k)
    (hr : c.run_callback k._callback arg = .ok result) :
    c.dispatch now name arg =
      .returned (({ c with invoked := c.invoked ++ [(name, arg)] } :
        ConsoleInterface).handle_command_result now result) := by
  unfold dispatch
  simp only [hk, run_callback_invoked, hr]

theorem echo_message_chunks (now text : Str) :
    echo_message now text =
      { _colour_pairs := [TIMESTAMP, INPUT, NORMAL],
        _strs := [timestamp now true, ">".toList, text] } := rfl

theorem save_message_getLast (c : ConsoleInterface) (m : Message) :
    (c.save_message m)._sent_messages.getLast? = some m := by
  unfold save_message
  dsimp only
  split
  · rename_i h
    simp only
    cases hs : c._sent_messages with
    | nil => rw [hs] at h; simp [MAX_MSG_BUFFER] at h
    | cons x xs => simp
  · simp

/-- C12, as the code behaves. For every buffer state with text `t` (and any cursor) on a
console whose scrollback is within its capacity, the enter event records exactly one echo
message, with chunks timestamp, `>`, `t`, as the newest scrollback entry, and hands exactly
`t` to `handle_command`, which either returns or throws. When it returns, the buffer is left
empty with cursor 0; when it throws, as it does when the command's handler throws, the
exception leaves `execute_message` and the buffer and the cursor stay as they were. With
`echo` registered as a command that returns its argument, submitting `echo hello` leaves
exactly two new messages: the echoed line in the scrollback and `hello` in the queue. -/
theorem execute_message_commits_buffer (fuel : Nat) (hfuel : 2 ≤ fuel) (t : Curses)
    (c : ConsoleInterface) (now_echo now_reply : Str)
    (hcap : c._sent_messages.length ≤ MAX_MSG_BUFFER) :
    ∃ c1,
      print_line fuel t c (to_int c._sent_messages.length)
          (echo_message now_echo c._input_buffer) true = .returned c1 ∧
      echo_message now_echo c._input_buffer =
        { _colour_pairs := [TIMESTAMP, INPUT, NORMAL],
          _strs := [timestamp now_echo true, ">".toList, c._input_buffer] } ∧
      c1._sent_messages =
        (c.save_message (echo_message now_echo c._input_buffer))._sent_messages ∧
      c1._sent_messages.getLast? = some (echo_message now_echo c._input_buffer) ∧
      c1._message_queue = c._message_queue ∧
      c.execute_message fuel t now_echo now_reply =
        (c1.handle_command now_reply c._input_buffer).andThen (fun c2 =>
          .returned (print_input_buffer t
            { c2 with _input_buffer := [], _current_index := 0 })) ∧
      (∀ c2, c1.handle_command now_reply c._input_buffer = .returned c2 →
        ∃ s, c.execute_message fuel t now_echo now_reply = .returned s ∧
          s._input_buffer = [] ∧ s._current_index = 0 ∧
          s._sent_messages = c1._sent_messages ∧ s._message_queue = c2._message_queue) ∧
      (umap_find c._commands "echo".toList = some echo_command →
        c._input_buffer = "echo hello".toList →
        ∃ s, c.execute_message fuel t now_echo now_reply = .returned s ∧
          s._input_buffer = [] ∧ s._current_index = 0 ∧
          s._sent_messages =
            (c.save_message (echo_message now_echo "echo hello".toList))._sent_messages ∧
          s._message_queue = c._message_queue ++
            [{ _colour_pairs := [TIMESTAMP, NORMAL],
               _strs := [timestamp now_reply true, "hello".toList] }] ∧
          s.invoked = c.invoked ++ [("echo".toList, "hello".toList)]) ∧
      (∀ what s, c1.handle_command now_reply c._input_buffer = .thrown what s →
        c.execute_message fuel t now_echo now_reply = .thrown what s ∧
        s._input_buffer = c._input_buffer ∧ s._current_index = c._current_index ∧
        s._sent_messages = c1._sent_messages) ∧
      ((∃ c2, c1.handle_command now_reply c._input_buffer = .returned c2) ∨
        (∃ what s, c1.handle_command now_reply c._input_buffer = .thrown what s)) := by
  have hyp : 3 ≤ t.LINES ∨ c._sent_messages.length < 2 ^ 64 - 3 := by
    right; unfold MAX_MSG_BUFFER at hcap; omega
  obtain ⟨c1, h1, hsent, hbuf, hidx, hq, hcmds, hinv⟩ :=
    print_line_save_fields fuel hfuel t c (to_int c._sent_messages.length)
      (echo_message now_echo c._input_buffer) hyp
  have hexec : c.execute_message fuel t now_echo now_reply =
      (c1.handle_command now_reply c._input_buffer).andThen (fun c2 =>
        .returned (print_input_buffer t
          { c2 with _input_buffer := [], _current_index := 0 })) := by
    unfold execute_message
    dsimp only
    unfold echo_message at h1
    rw [h1]
    rfl
  refine ⟨c1, h1, rfl, hsent, ?_, hq, hexec, ?_, ?_, ?_, ?_⟩
  · rw [hsent]; exact save_message_getLast c _
  · intro c2 h2
    rw [hexec, h2]
    have hf := handle_command_frame c1 now_reply c._input_buffer
    rw [h2] at hf
    exact ⟨_, rfl, rfl, rfl, hf.2.2, rfl⟩
  · intro hecho hline
    have hk : umap_find c1._commands
        ("echo hello".toList.takeWhile (fun x => x != ' ')) = some echo_command := by
      rw [hcmds]; exact hecho
    have hd := dispatch_known_ok c1 now_reply
      ("echo hello".toList.takeWhile (fun x => x != ' '))
      (("echo hello".toList.dropWhile (fun x => x != ' ')).drop 1) "hello".toList
      echo_command hk rfl
    rw [hexec, hline, handle_command_eq_dispatch, hd]
    refine ⟨_, rfl, rfl, rfl, ?_, ?_, ?_⟩
    · rw [← hline]; exact hsent
    · show (c1._message_queue ++ _) = _
      rw [hq]; rfl
    · show c1.invoked ++ _ = _
      rw [hinv]; rfl
  · intro what s hthrown
    have hf := handle_command_frame c1 now_reply c._input_buffer
    rw [hthrown] at hf
    refine ⟨by rw [hexec, hthrown]; rfl, ?_, ?_, hf.2.2⟩
    · rw [← hbuf]; exact hf.1
    · rw [← hidx]; exact hf.2.1
  · have hf := handle_command_frame c1 now_reply c._input_buffer
    cases hc : c1.handle_command now_reply c._input_buffer with
    | returned c2 => exact Or.inl ⟨c2, rfl⟩
    | thrown what s => exact Or.inr ⟨what, s, rfl⟩
    | out_of_fuel => rw [hc] at hf; exact hf.elim

/-- Witness of the amended C12: enter pressed on the sample console with `echo` registered
and `echo hello` in the buffer. -/
theorem execute_message_commits_buffer_witness :
    echo_console._sent_messages.length ≤ MAX_MSG_BUFFER ∧
    umap_find echo_console._commands "echo".toList = some echo_command ∧
    echo_console._input_buffer = "echo hello".toList ∧
    ∃ s, echo_console.execute_message 2 ⟨24, 80⟩ "12:00".toList "12:01".toList = .returned s ∧
      s._input_buffer = [] ∧ s._current_index = 0 ∧
      s._sent_messages =
        (echo_console.save_message
          (echo_message "12:00".toList "echo hello".toList))._sent_messages ∧
      s._message_queue = echo_console._message_queue ++
        [{ _colour_pairs := [TIMESTAMP, NORMAL],
           _strs := [timestamp "12:01".toList true, "hello".toList] }] ∧
      s.invoked = echo_console.invoked ++ [("echo".toList, "hello".toList)] := by
  obtain ⟨c1, _, _, _, _, _, _, _, h, _, _⟩ :=
    execute_message_commits_buffer 2 (by decide) ⟨24, 80⟩ echo_console "12:00".toList
      "12:01".toList (by decide)
  exact ⟨by decide, rfl, rfl, h rfl rfl⟩

/-- C12 fails as stated. On the sample console with `boom` in the buffer and the cursor at 4,
the handler registered as `boom` throws: the enter event records the echo line and hands
`boom` to `handle_command`, but it does not return and the buffer is not reset: the exception
leaves `handle_input` with `boom` still in the buffer and the cursor still at 4. -/
theorem enter_keeps_buffer_when_handler_throws :
    (∃ s, boom_console.handle_input 2 ⟨24, 80⟩ "12:00".toList "12:01".toList ENTER =
        .thrown "handler failed".toList s ∧
      s._input_buffer = "boom".toList ∧ s._current_index = 4 ∧
      s._sent_messages = [echo_message "12:00".toList "boom".toList] ∧
      s.invoked = [("boom".toList, [])]) ∧
    (∀ s, boom_console.handle_input 2 ⟨24, 80⟩ "12:00".toList "12:01".toList ENTER ≠
      .returned s) := by
  have e : boom_console.handle_input 2 ⟨24, 80⟩ "12:00".toList "12:01".toList ENTER =
      .thrown "handler failed".toList
        { boom_console with
          _sent_messages := [echo_message "12:00".toList "boom".toList]
          stdscr := boom_console.stdscr ++ [DrawOp.line 0 Message.empty]
          invoked := [("boom".toList, [])] } := rfl
  refine ⟨⟨_, e, rfl, rfl, rfl, rfl⟩, ?_⟩
  intro s h
  rw [e] at h
  cases h

/-! ### C13 to C16: the input editor -/

/-- C13. For every buffer state with text `t` and cursor `i` and every character `ch` of the
whitelist, `add_character` yields the text `t[0..i) ++ [ch] ++ t[i..)` and the cursor
`i + 1`: `ch` stands exactly at the old cursor position, the characters before and after it
keep their order, and the length grows by one. Nothing else in the console changes. -/
theorem add_character_inserts_at_cursor (c : ConsoleInterface) (ch : Char)
    (hch : ch ∈ _acceptable_characters) :
    (c.add_character ch)._input_buffer =
      c._input_buffer.take c._current_index ++ [ch] ++
        c._input_buffer.drop c._current_index ∧
    (c.add_character ch)._current_index = c._current_index + 1 ∧
    (c.add_character ch)._input_buffer.length = c._input_buffer.length + 1 ∧
    (c._current_index ≤ c._input_buffer.length →
      (c.add_character ch)._input_buffer[c._current_index]? = some ch) ∧
    (c.add_character ch)._message_queue = c._message_queue ∧
    (c.add_character ch)._sent_messages = c._sent_messages := by
  have hfind : (find _acceptable_characters ch).isNone = false := by
    cases hf : find _acceptable_characters ch with
    | none => exact absurd hch ((find_none_iff _ _).1 hf)
    | some p => rfl
  have hbuf : (c.add_character ch)._input_buffer =
      c._input_buffer.take c._current_index ++ [ch] ++
        c._input_buffer.drop c._current_index := by
    unfold add_character
    simp only [hfind, Bool.false_eq_true, if_false]
    split
    · rename_i h
      simp only
      rw [List.take_of_length_le h, List.drop_of_length_le h, List.append_nil]
    · rfl
  have hidx : (c.add_character ch)._current_index = c._current_index + 1 := by
    unfold add_character
    simp only [hfind, Bool.false_eq_true, if_false]
    split <;> rfl
  refine ⟨hbuf, hidx, ?_, ?_, ?_, ?_⟩
  · rw [hbuf]
    simp only [List.length_append, List.length_take, List.length_drop, List.length_singleton]
    omega
  · intro hle
    rw [hbuf, List.append_assoc,
      List.getElem?_append_right (by simp [List.length_take, hle])]
    simp [List.length_take, hle]
  · unfold add_character
    simp only [hfind, Bool.false_eq_true, if_false]
    split <;> rfl
  · unfold add_character
    simp only [hfind, Bool.false_eq_true, if_false]
    split <;> rfl

/-- Witness of C13: `X` typed into `abc` with the cursor after `a`. -/
theorem add_character_inserts_at_cursor_witness :
    'X' ∈ _acceptable_characters ∧
    (typing_console.add_character 'X')._input_buffer = "aXbc".toList ∧
    (typing_console.add_character 'X')._current_index = 2 :=
  ⟨by decide,
   (add_character_inserts_at_cursor typing_console 'X' (by decide)).1,
   (add_character_inserts_at_cursor typing_console 'X' (by decide)).2.1⟩

theorem handle_input_other_key (fuel : Nat) (t : Curses) (c : ConsoleInterface)
    (now_echo now_reply : Str) (input : Int)
    (h1 : input ≠ LEFT) (h2 : input ≠ RIGHT) (h3 : input ≠ UP) (h4 : input ≠ DOWN)
    (h5 : input ≠ BACKSPACE) (h6 : input ≠ ENTER) :
    c.handle_input fuel t now_echo now_reply input =
      .returned (print_input_buffer t (c.add_character (to_char input))) := by
  unfold handle_input
  simp [h1, h2, h3, h4, h5, h6, Outcome.andThen]

theorem add_character_dropped (c : ConsoleInterface) (ch : Char)
    (hch : ch ∉ _acceptable_characters) : c.add_character ch = c := by
  unfold add_character
  rw [(find_none_iff _ _).2 hch]
  rfl

/-- A key code that is none of the six special keys and whose low byte is not a character of
the whitelist is dropped: the console is unchanged but for the redrawn input row. -/
theorem handle_input_dropped (fuel : Nat) (t : Curses) (c : ConsoleInterface)
    (now_echo now_reply : Str) (input : Int)
    (h1 : input ≠ LEFT) (h2 : input ≠ RIGHT) (h3 : input ≠ UP) (h4 : input ≠ DOWN)
    (h5 : input ≠ BACKSPACE) (h6 : input ≠ ENTER)
    (hch : to_char input ∉ _acceptable_characters) :
    c.handle_input fuel t now_echo now_reply input = .returned (print_input_buffer t c) := by
  rw [handle_input_other_key fuel t c now_echo now_reply input h1 h2 h3 h4 h5 h6,
    add_character_dropped c _ hch]

/-- C14, at a failing input. The key code 330 (the delete key, `KEY_DC` of ncurses) is none
of left, right, up, down, backspace, enter, and it is not the code of any character of the
whitelist, whose codes are all below 256. `handle_input` narrows it to its low byte, the
character `J`, finds that in the whitelist and inserts it: the buffer `abc` with the cursor
at 1 becomes `aJbc` with the cursor at 2. -/
theorem handle_input_inserts_low_byte :
    (330 : Int) ≠ LEFT ∧ (330 : Int) ≠ RIGHT ∧ (330 : Int) ≠ UP ∧ (330 : Int) ≠ DOWN ∧
    (330 : Int) ≠ BACKSPACE ∧ (330 : Int) ≠ ENTER ∧
    (∀ ch ∈ _acceptable_characters, (ch.toNat : Int) ≠ 330) ∧
    to_char 330 = 'J' ∧
    ∃ s, typing_console.handle_input 2 ⟨24, 80⟩ [] [] 330 = .returned s ∧
      s._input_buffer = "aJbc".toList ∧ s._current_index = 2 := by
  refine ⟨by decide, by decide, by decide, by decide, by decide, by decide, by decide,
    by decide, ⟨_, rfl, by decide, by decide⟩⟩

/-- C15. For every buffer state with text `t` and cursor `i` (inside the buffer): when
`i > 0`, `remove_character` removes exactly the character at position `i - 1`, keeps the
characters before and after it in order, and sets the cursor to `i - 1`; when `i = 0` it
changes neither the buffer nor the cursor. -/
theorem remove_character_before_cursor (t : Curses) (c : ConsoleInterface)
    (hcursor : c._current_index ≤ c._input_buffer.length) :
    (0 < c._current_index →
      (c.remove_character t)._input_buffer =
        c._input_buffer.take (c._current_index - 1) ++
          c._input_buffer.drop c._current_index ∧
      (c.remove_character t)._current_index = c._current_index - 1 ∧
      (c.remove_character t)._input_buffer.length = c._input_buffer.length - 1) ∧
    (c._current_index = 0 →
      (c.remove_character t)._input_buffer = c._input_buffer ∧
      (c.remove_character t)._current_index = c._current_index) ∧
    (c.remove_character t)._message_queue = c._message_queue ∧
    (c.remove_character t)._sent_messages = c._sent_messages := by
  refine ⟨?_, ?_, ?_, ?_⟩
  · intro hpos
    have hne : c._input_buffer ≠ [] := by
      intro h; rw [h] at hcursor; simp at hcursor; omega
    have hguard : ¬ (c._current_index = 0 ∨ c._input_buffer.isEmpty = true ∨
        c._current_index > c._input_buffer.length) := by
      simp only [List.isEmpty_iff]
      rintro (h | h | h)
      · omega
      · exact hne h
      · omega
    unfold remove_character
    rw [if_neg hguard]
    refine ⟨?_, rfl, ?_⟩
    · show c._input_buffer.eraseIdx (c._current_index - 1) = _
      rw [List.eraseIdx_eq_take_drop_succ]
      have : c._current_index - 1 + 1 = c._current_index := by omega
      rw [this]
    · show (c._input_buffer.eraseIdx (c._current_index - 1)).length = _
      rw [List.length_eraseIdx]
      split
      · rfl
      · omega
  · intro h0
    unfold remove_character
    simp [h0]
  · unfold remove_character
    split <;> rfl
  · unfold remove_character
    split <;> rfl

/-- Witness of C15: backspace in `abc` with the cursor after `a`. -/
theorem remove_character_before_cursor_witness :
    typing_console._current_index ≤ typing_console._input_buffer.length ∧
    0 < typing_console._current_index ∧
    (typing_console.remove_character ⟨24, 80⟩)._input_buffer = "bc".toList ∧
    (typing_console.remove_character ⟨24, 80⟩)._current_index = 0 :=
  ⟨by decide, by decide,
   ((remove_character_before_cursor ⟨24, 80⟩ typing_console (by decide)).1 (by decide)).1,
   ((remove_character_before_cursor ⟨24, 80⟩ typing_console (by decide)).1 (by decide)).2.1⟩

/-- C16. For every buffer state (cursor inside the buffer): `left` decrements the cursor by
one unless it is 0, in which case nothing changes; `right` increments it by one unless it
equals the buffer length, in which case nothing changes; `up` and `down` change nothing;
and none of the four events changes the buffer content. -/
theorem move_index_effect (c : ConsoleInterface)
    (hcursor : c._current_index ≤ c._input_buffer.length) :
    (c._current_index ≠ 0 → (c.move_index LEFT)._current_index = c._current_index - 1) ∧
    (c._current_index = 0 → c.move_index LEFT = c) ∧
    (c._current_index ≠ c._input_buffer.length →
      (c.move_index RIGHT)._current_index = c._current_index + 1) ∧
    (c._current_index = c._input_buffer.length → c.move_index RIGHT = c) ∧
    c.move_index UP = c ∧ c.move_index DOWN = c ∧
    (c.move_index LEFT)._input_buffer = c._input_buffer ∧
    (c.move_index RIGHT)._input_buffer = c._input_buffer ∧
    (∀ fuel t now_echo now_reply key,
      key = LEFT ∨ key = RIGHT ∨ key = UP ∨ key = DOWN →
      c.handle_input fuel t now_echo now_reply key =
        .returned (print_input_buffer t (c.move_index key))) := by
  refine ⟨?_, ?_, ?_, ?_, rfl, rfl, ?_, ?_, ?_⟩
  · intro h
    have : c._current_index ≥ 1 := by omega
    simp [move_index, this]
  · intro h
    simp [move_index, h]
  · intro h
    have hlt : c._current_index < c._input_buffer.length := by omega
    have hne : RIGHT ≠ LEFT := by decide
    simp [move_index, hne, hlt]
  · intro h
    have hne : RIGHT ≠ LEFT := by decide
    simp [move_index, hne, h]
  · unfold move_index
    simp only [if_true]
    split <;> rfl
  · have hne : RIGHT ≠ LEFT := by decide
    unfold move_index
    simp only [hne, if_false, if_true]
    split <;> rfl
  · intro fuel t now_echo now_reply key hkey
    unfold handle_input
    simp [hkey, Outcome.andThen]

/-- Witness of C16: left and right in `abc` with the cursor after `a`. -/
theorem move_index_effect_witness :
    typing_console._current_index ≤ typing_console._input_buffer.length ∧
    typing_console._current_index ≠ 0 ∧
    (typing_console.move_index LEFT)._current_index = 0 ∧
    (typing_console.move_index RIGHT)._current_index = 2 :=
  ⟨by decide, by decide,
   (move_index_effect typing_console (by decide)).1 (by decide),
   (move_index_effect typing_console (by decide)).2.2.1 (by decide)⟩

/-! ### C17, C18: registration and the `help` command -/

theorem umap_find_append_absent (m1 m2 : List (Str × Command)) (key : Str)
    (h : key ∉ m1.map Prod.fst) : umap_find (m1 ++ m2) key = umap_find m2 key := by
  induction m1 with
  | nil => rfl
  | cons e rest ih =>
    have he : ¬ e.1 = key := fun e1 => h (by simp [e1])
    have hr : key ∉ rest.map Prod.fst := fun e1 => h (by simp [e1])
    simp only [List.cons_append, umap_find, he, if_false]
    exact ih hr

theorem umap_find_append (m1 m2 : List (Str × Command)) (key : Str) :
    umap_find (m1 ++ m2) key =
      match umap_find m1 key with
      | some v => some v
      | none => umap_find m2 key := by
  induction m1 with
  | nil => rfl
  | cons e rest ih =>
    by_cases he : e.1 = key
    · simp [umap_find, he]
    · simp only [List.cons_append, umap_find, he, if_false]
      exact ih

theorem umap_find_map_replace (m : List (Str × Command)) (key other : Str) (value : Command) :
    umap_find (m.map (fun e => if e.1 = key then (e.1, value) else e)) other =
      if other = key then (umap_find m key).map (fun _ => value) else umap_find m other := by
  induction m with
  | nil => simp [umap_find]
  | cons e rest ih =>
    by_cases he : e.1 = key
    · by_cases ho : other = key
      · simp [umap_find, he, ho]
      · have : ¬ key = other := fun x => ho x.symm
        simp only [List.map_cons, he, if_true, umap_find, this, if_false, ih, ho]
    · by_cases ho : other = key
      · subst ho
        simp only [List.map_cons, he, if_false, umap_find, if_true]
        rw [ih]
        simp
      · by_cases heo : e.1 = other
        · simp [umap_find, he, heo, ho]
        · simp only [List.map_cons, he, if_false, umap_find, heo, ih, ho]

theorem umap_find_assign (hash : Hasher) (m : List (Str × Command)) (key other : Str)
    (value : Command) :
    umap_find (umap_assign hash m key value) other =
      if other = key then some value else umap_find m other := by
  unfold umap_assign
  cases hf : umap_find m key with
  | some v =>
    simp only [umap_find_map_replace, hf, Option.map_some']
  | none =>
    simp only
    have habs := (umap_find_none_iff m key).1 hf
    by_cases ho : other = key
    · subst ho
      have h1 : other ∉ (m.take (hash (m.map Prod.fst) other)).map Prod.fst := by
        intro hx
        rw [List.map_take] at hx
        exact habs (List.mem_of_mem_take hx)
      rw [List.append_assoc, umap_find_append_absent _ _ _ h1]
      simp [umap_find]
    · have hko : ¬ key = other := fun x => ho x.symm
      rw [if_neg ho, List.append_assoc, umap_find_append]
      conv_rhs => rw [← List.take_append_drop (hash (m.map Prod.fst) key) m, umap_find_append]
      simp [umap_find, hko]

theorem umap_find_add_commands (hash : Hasher) (names : List Str) (cmd : Command) :
    ∀ (c : ConsoleInterface) (other : Str),
      umap_find (c.add_commands hash names cmd)._commands other =
        if other ∈ names then some cmd else umap_find c._commands other := by
  induction names with
  | nil => intro c other; simp [add_commands]
  | cons name rest ih =>
    intro c other
    have h := ih (c.add_command hash name cmd) other
    simp only [add_commands, List.foldl_cons] at h ⊢
    rw [h]
    simp only [add_command, umap_find_assign, List.mem_cons]
    by_cases h1 : other ∈ rest
    · simp [h1]
    · by_cases h2 : other = name <;> simp [h1, h2]

/-- C17. For every command table, name `n` and commands `k1`, `k2`: after
`add_command(n, k1)` followed by `add_command(n, k2)` the name `n` is bound to `k2`, so that
dispatching `n` runs the handler of `k2` and no other (no handler runs at registration
time), and every other name keeps the command it had; and the list form
`add_command([n1..nk], k)` binds each of the `k` names to `k` and leaves every name outside
the list as it was. -/
theorem add_command_last_writer_wins (hash : Hasher) (c : ConsoleInterface) (n : Str)
    (k1 k2 : Command) (names : List Str) (k : Command) :
    umap_find ((c.add_command hash n k1).add_command hash n k2)._commands n = some k2 ∧
    (∀ other, other ≠ n →
      umap_find ((c.add_command hash n k1).add_command hash n k2)._commands other =
        umap_find c._commands other) ∧
    ((c.add_command hash n k1).add_command hash n k2).invoked = c.invoked ∧
    (∀ now arg,
      ((c.add_command hash n k1).add_command hash n k2).dispatch now n arg =
        match ({ (c.add_command hash n k1).add_command hash n k2 with
                  invoked := c.invoked ++ [(n, arg)] } : ConsoleInterface).run_callback
                k2._callback arg with
        | .error what =>
          .thrown what { (c.add_command hash n k1).add_command hash n k2 with
            invoked := c.invoked ++ [(n, arg)] }
        | .ok result =>
          .returned (({ (c.add_command hash n k1).add_command hash n k2 with
            invoked := c.invoked ++ [(n, arg)] } :
              ConsoleInterface).handle_command_result now result)) ∧
    (∀ name ∈ names, umap_find (c.add_commands hash names k)._commands name = some k) ∧
    (∀ other, other ∉ names →
      umap_find (c.add_commands hash names k)._commands other =
        umap_find c._commands other) := by
  have hfind : umap_find ((c.add_command hash n k1).add_command hash n k2)._commands n =
      some k2 := by
    simp only [add_command, umap_find_assign, if_true]
  refine ⟨hfind, ?_, rfl, ?_, ?_, ?_⟩
  · intro other hne
    simp only [add_command, umap_find_assign, hne, if_false]
  · intro now arg
    unfold dispatch
    rw [hfind]
    rfl
  · intro name hname
    rw [umap_find_add_commands, if_pos hname]
  · intro other hother
    rw [umap_find_add_commands, if_neg hother]

/-- Witness of C17: `add` registered twice on the sample console, then three names
registered at once. -/
theorem add_command_last_writer_wins_witness :
    umap_find ((sample_console.add_command (fun _ _ => 0) "add".toList
      quiet_command).add_command (fun _ _ => 0) "add".toList failing_command)._commands
        "add".toList = some failing_command ∧
    umap_find ((sample_console.add_command (fun _ _ => 0) "add".toList
      quiet_command).add_command (fun _ _ => 0) "add".toList failing_command)._commands
        "boom".toList = umap_find sample_console._commands "boom".toList ∧
    umap_find (sample_console.add_commands (fun _ _ => 0)
      ["q".toList, "quit".toList, "exit".toList] quiet_command)._commands "quit".toList =
        some quiet_command :=
  ⟨(add_command_last_writer_wins (fun _ _ => 0) sample_console "add".toList quiet_command
      failing_command [] quiet_command).1,
   (add_command_last_writer_wins (fun _ _ => 0) sample_console "add".toList quiet_command
      failing_command [] quiet_command).2.1 "boom".toList (by decide),
   (add_command_last_writer_wins (fun _ _ => 0) sample_console "add".toList quiet_command
      failing_command ["q".toList, "quit".toList, "exit".toList] quiet_command).2.2.2.2.1
      "quit".toList (by decide)⟩

/-- C18. For every command table and argument text `a`, the `help` handler returns the
generic usage guidance when `a` is empty; when `a` is a non-empty registered name it returns
`a`, a colon and a space, then the description of the command registered under `a`; and for
any other `a` it returns a not-found message that contains `a`. The built-in name `help` is
bound to this handler. -/
theorem help_lambda_cases (c : ConsoleInterface) (a : Str) :
    (a = [] → c.help_lambda a =
      ("Type \"help <command>\" for help with that command." ++
       "Type \"commands\" for a list of commands.").toList) ∧
    (∀ k, a ≠ [] → umap_find c._commands a = some k →
      c.help_lambda a = a ++ ": ".toList ++ k._description) ∧
    (a ≠ [] → umap_find c._commands a = none →
      c.help_lambda a = "Command \"".toList ++ a ++
        "\" not found, type \"commands\" to list all commands.".toList ∧
      ∃ before after, c.help_lambda a = before ++ a ++ after) ∧
    c.run_callback .help a = .ok (c.help_lambda a) ∧
    (∀ hash t, ∃ description,
      umap_find (ConsoleInterface.init hash t)._commands "help".toList =
        some { _description := description, _callback := .help }) := by
  refine ⟨?_, ?_, ?_, rfl, ?_⟩
  · intro h
    subst h
    rfl
  · intro k hne hk
    have : a.isEmpty = false := by cases a with
      | nil => exact absurd rfl hne
      | cons x xs => rfl
    simp [help_lambda, this, hk]
  · intro hne hk
    have : a.isEmpty = false := by cases a with
      | nil => exact absurd rfl hne
      | cons x xs => rfl
    have e : c.help_lambda a = "Command \"".toList ++ a ++
        "\" not found, type \"commands\" to list all commands.".toList := by
      simp [help_lambda, this, hk]
    exact ⟨e, _, _, e⟩
  · intro hash t
    refine ⟨"Type \"help <command>\" for help with that command.".toList, ?_⟩
    simp only [ConsoleInterface.init, add_default_commands, add_command, umap_find_assign,
      if_true]

/-- Witness of C18: `help` asked about `add`, about nothing and about `zzz` on the sample
console. -/
theorem help_lambda_cases_witness :
    sample_console.help_lambda "add".toList = "add: Repeat the argument".toList ∧
    sample_console.help_lambda [] =
      ("Type \"help <command>\" for help with that command." ++
       "Type \"commands\" for a list of commands.").toList ∧
    sample_console.help_lambda "zzz".toList =
      "Command \"zzz\" not found, type \"commands\" to list all commands.".toList :=
  ⟨(help_lambda_cases sample_console "add".toList).2.1 echo_command (by decide) rfl,
   (help_lambda_cases sample_console []).1 rfl,
   ((help_lambda_cases sample_console "zzz".toList).2.2.1 (by decide) rfl).1⟩

/-! ### C11: draining the message queue -/

theorem save_message_eq (c : ConsoleInterface) (m : Message) :
    c.save_message m = { c with _sent_messages := (c.save_message m)._sent_messages } := by
  unfold save_message
  dsimp only
  split <;> rfl

theorem save_message_keep_last (c : ConsoleInterface) (m : Message)
    (h : c._sent_messages.length ≤ MAX_MSG_BUFFER) :
    (c.save_message m)._sent_messages = keep_last MAX_MSG_BUFFER (c._sent_messages ++ [m]) := by
  unfold save_message keep_last
  dsimp only
  simp only [List.length_append, List.length_singleton]
  unfold MAX_MSG_BUFFER at h ⊢
  split
  · have : c._sent_messages.length + 1 - 100 = 1 := by omega
    rw [this, List.drop_one]
  · have : c._sent_messages.length + 1 - 100 = 0 := by omega
    rw [this, List.drop_zero]

theorem keep_last_append_keep_last {α : Type} (n : Nat) (l r : List α) :
    keep_last n (keep_last n l ++ r) = keep_last n (l ++ r) := by
  unfold keep_last
  simp only [List.length_append, List.length_drop]
  by_cases h : l.length ≤ n
  · have h1 : l.length - n = 0 := by omega
    simp [h1]
  · rw [List.drop_append_eq_append_drop, List.drop_append_eq_append_drop, List.drop_drop,
      List.length_drop]
    congr 2 <;> omega

theorem keep_last_of_length_le {α : Type} (n : Nat) (l : List α) (h : l.length ≤ n) :
    keep_last n l = l := by
  unfold keep_last
  have : l.length - n = 0 := by omega
  rw [this, List.drop_zero]

theorem print_line_save_eq (fuel : Nat) (t : Curses) (c : ConsoleInterface) (line : Int)
    (m : Message) (hyp : 3 ≤ t.LINES ∨ c._sent_messages.length < 2 ^ 64 - 3) :
    print_line (fuel + 2) t c line m true =
      .returned { c with
        _sent_messages := (c.save_message m)._sent_messages
        stdscr := c.stdscr ++
          (if line ≥ (t.LINES : Int) - 3 then adjust_ops t c._sent_messages else []) ++
          [DrawOp.line (if line ≥ (t.LINES : Int) - 3 then (t.LINES : Int) - 3 else line)
            Message.empty] } := by
  rw [print_line_eq fuel t c line m true hyp]
  congr 1
  by_cases hl : line ≥ (t.LINES : Int) - 3
  · rw [if_pos hl, if_pos hl, if_pos hl]
    show ({ (({ c with stdscr := c.stdscr ++ adjust_ops t c._sent_messages } :
      ConsoleInterface).save_message m) with stdscr := _ } : ConsoleInterface) = _
    rw [save_message_eq]
    show ({ c with _sent_messages := _, stdscr := _ } : ConsoleInterface) = _
    rw [save_message_sent_of_stdscr]
    rfl
  · rw [if_neg hl, if_neg hl, if_neg hl]
    show ({ (c.save_message m) with stdscr := _ } : ConsoleInterface) = _
    rw [save_message_eq]
    rw [List.append_nil]
    rfl

theorem send_next_message_eq (fuel : Nat) (hf : 2 ≤ fuel) (t : Curses) (c : ConsoleInterface)
    (front : Message) (rest : List Message)
    (hq : c._message_queue = front :: rest)
    (hyp : 3 ≤ t.LINES ∨ c._sent_messages.length < 2 ^ 64 - 3) :
    c.send_next_message fuel t =
      .returned { c with
        _message_queue := rest
        _sent_messages := (c.save_message front)._sent_messages
        stdscr := c.stdscr ++ c.scroll_ops t ++ [DrawOp.line (c.next_row t) Message.empty] } := by
  obtain ⟨k, rfl⟩ : ∃ k, fuel = k + 2 := ⟨fuel - 2, by omega⟩
  unfold send_next_message
  rw [hq]
  simp only
  rw [print_line_save_eq k t c _ front hyp]
  show Outcome.returned _ = _
  congr 1
  show ({ c with _message_queue := c._message_queue.tail, _sent_messages := _, stdscr := _ } :
    ConsoleInterface) = _
  rw [hq]
  rfl

theorem drain_queue_nil (fuel : Nat) (t : Curses) (n : Nat) (c : ConsoleInterface)
    (h : c._message_queue = []) : c.drain_queue fuel t n = .returned c := by
  cases n <;> simp [drain_queue, h]

theorem drain_queue_cons (fuel : Nat) (hf : 2 ≤ fuel) (t : Curses) (n : Nat)
    (c : ConsoleInterface) (front : Message) (rest : List Message)
    (hq : c._message_queue = front :: rest)
    (hyp : 3 ≤ t.LINES ∨ c._sent_messages.length < 2 ^ 64 - 3) :
    c.drain_queue fuel t (n + 1) =
      ConsoleInterface.drain_queue fuel t n { c with
        _message_queue := rest
        _sent_messages := (c.save_message front)._sent_messages
        stdscr := c.stdscr ++ c.scroll_ops t ++ [DrawOp.line (c.next_row t) Message.empty] } := by
  have hne : c._message_queue.isEmpty = false := by rw [hq]; rfl
  rw [drain_queue, hne, send_next_message_eq fuel hf t c front rest hq hyp]
  rfl

/-- Draining a queue into a scrollback within its capacity: the loop returns, the queue is
empty, and the scrollback holds the last 100 of its former entries followed by the queued
messages in queue order. -/
theorem drain_queue_scrollback (fuel : Nat) (hf : 2 ≤ fuel) (t : Curses) (n : Nat) :
    ∀ c : ConsoleInterface, c._message_queue.length ≤ n →
      c._sent_messages.length ≤ MAX_MSG_BUFFER →
      ∃ s, c.drain_queue fuel t n = .returned s ∧ s._message_queue = [] ∧
        s._sent_messages = keep_last MAX_MSG_BUFFER (c._sent_messages ++ c._message_queue) := by
  induction n with
  | zero =>
    intro c hq hs
    have hnil : c._message_queue = [] := List.length_eq_zero.1 (by omega)
    refine ⟨c, drain_queue_nil fuel t 0 c hnil, hnil, ?_⟩
    rw [hnil, List.append_nil, keep_last_of_length_le _ _ hs]
  | succ n ih =>
    intro c hq hs
    cases hqueue : c._message_queue with
    | nil =>
      refine ⟨c, drain_queue_nil fuel t _ c hqueue, hqueue, ?_⟩
      rw [List.append_nil, keep_last_of_length_le _ _ hs]
    | cons front rest =>
      have hyp : 3 ≤ t.LINES ∨ c._sent_messages.length < 2 ^ 64 - 3 := by
        right; unfold MAX_MSG_BUFFER at hs; omega
      rw [drain_queue_cons fuel hf t n c front rest hqueue hyp]
      obtain ⟨s, hs1, hs2, hs3⟩ := ih
        { c with
          _message_queue := rest
          _sent_messages := (c.save_message front)._sent_messages
          stdscr := c.stdscr ++ c.scroll_ops t ++ [DrawOp.line (c.next_row t) Message.empty] }
        (by rw [hqueue] at hq; simp only [List.length_cons] at hq; exact Nat.le_of_succ_le_succ hq)
        (save_message_length_le c front hs)
      refine ⟨s, hs1, hs2, ?_⟩
      rw [hs3]
      show keep_last MAX_MSG_BUFFER ((c.save_message front)._sent_messages ++ rest) = _
      rw [save_message_keep_last c front hs, keep_last_append_keep_last]
      simp

/-- C11, at a failing input. On the console as constructed (24 lines), the messages `one`,
`two`, `three` are enqueued in that order and the queue is drained. The loop returns with
the queue empty and the scrollback holding the three messages in that order; but each
`print_line` call has moved its message into the scrollback before drawing it, so the three
drawings, on rows 0, 1 and 2, are drawings of the empty message: none of the three messages
has been drawn. -/
theorem drain_queue_draws_moved_from_messages :
    ∃ s, queued_console.drain_queue 2 ⟨24, 80⟩ 3 = .returned s ∧
      s._message_queue = [] ∧
      s._sent_messages =
        [plain_message "one".toList, plain_message "two".toList,
         plain_message "three".toList] ∧
      s.stdscr = queued_console.stdscr ++
        [DrawOp.line 0 Message.empty, DrawOp.line 1 Message.empty,
         DrawOp.line 2 Message.empty] ∧
      row_content s.stdscr 0 = some Message.empty ∧
      row_content s.stdscr 1 = some Message.empty ∧
      row_content s.stdscr 2 = some Message.empty ∧
      (∀ op ∈ s.stdscr, ∀ r, op ≠ DrawOp.line r (plain_message "one".toList) ∧
        op ≠ DrawOp.line r (plain_message "two".toList) ∧
        op ≠ DrawOp.line r (plain_message "three".toList)) := by
  refine ⟨_, rfl, rfl, rfl, rfl, by decide, by decide, by decide, ?_⟩
  intro op hop r
  have hmem : op ∈ [DrawOp.separator 22 80, DrawOp.input_buffer 23 [] 0,
      DrawOp.line 0 Message.empty, DrawOp.line 1 Message.empty,
      DrawOp.line 2 Message.empty] := hop
  simp only [List.mem_cons, List.mem_singleton, List.not_mem_nil, or_false] at hmem
  rcases hmem with h | h | h | h | h <;> subst h <;>
    refine ⟨?_, ?_, ?_⟩ <;> intro h <;> cases h

/-! ### C20: the row a drained message is drawn on -/

/-- While the scrollback is below its capacity and below `LINES - 3`, the next message is
drawn on the row whose number is the scrollback size, one below the row of the message
before, without a scroll. -/
theorem next_row_below_capacity (t : Curses) (c : ConsoleInterface)
    (hcap : c._sent_messages.length < MAX_MSG_BUFFER)
    (hfree : (c._sent_messages.length : Int) < (t.LINES : Int) - 3) (m : Message) :
    c.next_row t = c._sent_messages.length ∧ c.scroll_ops t = [] ∧
    (c.save_message m)._sent_messages.length = c._sent_messages.length + 1 := by
  have hto : to_int c._sent_messages.length = c._sent_messages.length := by
    unfold to_int; unfold MAX_MSG_BUFFER at hcap; omega
  have hl : ¬ to_int c._sent_messages.length ≥ (t.LINES : Int) - 3 := by rw [hto]; omega
  refine ⟨?_, ?_, ?_⟩
  · unfold next_row; rw [if_neg hl, hto]
  · unfold scroll_ops; rw [if_neg hl]
  · rw [save_message_keep_last c m (Nat.le_of_lt hcap),
      keep_last_of_length_le _ _ (by simp; omega)]
    simp

/-- Once the scrollback is at its capacity of 100 on a terminal of more than 103 lines, the
next message is drawn on row 100 without a scroll, and the scrollback is at its capacity
again afterwards: every later message is drawn on row 100 as well. -/
theorem next_row_at_capacity (t : Curses) (c : ConsoleInterface)
    (hcap : c._sent_messages.length = MAX_MSG_BUFFER) (htall : 103 < t.LINES) (m : Message) :
    c.next_row t = 100 ∧ c.scroll_ops t = [] ∧
    (c.save_message m)._sent_messages.length = MAX_MSG_BUFFER := by
  have hto : to_int c._sent_messages.length = 100 := by
    rw [hcap]; decide
  have hl : ¬ to_int c._sent_messages.length ≥ (t.LINES : Int) - 3 := by rw [hto]; omega
  refine ⟨?_, ?_, ?_⟩
  · unfold next_row; rw [if_neg hl, hto]
  · unfold scroll_ops; rw [if_neg hl]
  · rw [save_message_keep_last c m (Nat.le_of_eq hcap)]
    unfold keep_last
    simp only [List.length_drop, List.length_append, List.length_singleton, hcap]
    unfold MAX_MSG_BUFFER
    rfl

set_option maxRecDepth 100000 in
/-- C20, at a failing input. On a terminal of 200 lines (197 rows above the reserved ones),
102 messages are enqueued on the console as constructed and the queue is drained. The first
100 drawings go to rows 0 to 99, one row per message; the drawing for message 101 goes to
row 100, and the drawing for message 102 goes to row 100 again, over the row of message 101,
while 96 rows below are free. No scroll has taken place: the only separator drawn is the one
of the constructor, and `adjust_lines` draws one at every call. -/
theorem drain_queue_reuses_row_100 :
    (∃ s, tall_console.drain_queue 2 ⟨200, 80⟩ 102 = .returned s ∧ s._message_queue = [] ∧
      s._sent_messages.length = 100) ∧
    drawn_rows (tall_console.drain_queue 2 ⟨200, 80⟩ 102).drawn =
      (List.range 100).map Int.ofNat ++ [100, 100] ∧
    separators_drawn (tall_console.drain_queue 2 ⟨200, 80⟩ 102).drawn = 1 ∧
    separators_drawn tall_console.stdscr = 1 := by
  refine ⟨?_, by decide, by decide, by decide⟩
  obtain ⟨s, h1, h2, h3⟩ := drain_queue_scrollback 2 (by decide) ⟨200, 80⟩ 102 tall_console
    (by decide) (by decide)
  refine ⟨s, h1, h2, ?_⟩
  rw [h3]
  decide

/-! ### C19: the scroll of `print_line` -/

theorem row_content_append (a b : List DrawOp) (row : Int) :
    row_content (a ++ b) row = (row_content b row).or (row_content a row) := by
  unfold row_content
  rw [List.reverse_append, List.findSome?_append]

theorem row_content_cons (op : DrawOp) (rest : List DrawOp) (row : Int) :
    row_content (op :: rest) row = (row_content rest row).or (row_content [op] row) :=
  row_content_append [op] rest row

theorem row_content_line (r : Int) (m : Message) (row : Int) :
    row_content [DrawOp.line r m] row = if r = row then some m else none := by
  unfold row_content
  simp only [List.reverse_singleton, List.findSome?_cons, List.findSome?_nil]
  split_ifs <;> rfl

theorem row_content_separator (r c : Int) (row : Int) :
    row_content [DrawOp.separator r c] row = none := rfl

theorem row_content_repaint (t : Curses) (sent : List Message) (r : Nat)
    (hr : r < bottom_row t) (hsmall : bottom_row t ≤ 100) (is : List Nat)
    (hin : ∀ i ∈ is, 1 ≤ i ∧ i ≤ bottom_row t) :
    row_content (repaint_ops t sent is) r =
      if bottom_row t - r ∈ is then
        some (sent.getD (sent.length - (bottom_row t - r)) Message.empty)
      else none := by
  induction is with
  | nil => rfl
  | cons i rest ih =>
    have hi := hin i (List.mem_cons_self _ _)
    have hrest := ih (fun j hj => hin j (List.mem_cons_of_mem _ hj))
    have hcons : repaint_ops t sent (i :: rest) =
        DrawOp.line (to_int (bottom_row t - i))
          (sent.getD (sent.length - i) Message.empty) :: repaint_ops t sent rest := rfl
    rw [hcons, row_content_cons, hrest, row_content_line]
    have hto : to_int (bottom_row t - i) = ((bottom_row t - i : Nat) : Int) := by
      unfold to_int; omega
    by_cases hmem : bottom_row t - r ∈ rest
    · rw [if_pos hmem, if_pos (List.mem_cons_of_mem _ hmem)]
      rfl
    · by_cases hir : i = bottom_row t - r
      · subst hir
        have hrow : to_int (bottom_row t - (bottom_row t - r)) = (r : Int) := by
          unfold to_int; omega
        rw [if_neg hmem, if_pos hrow, if_pos (List.mem_cons_self _ _)]
        rfl
      · have hrow : ¬ to_int (bottom_row t - i) = (r : Int) := by rw [hto]; omega
        have hnot : bottom_row t - r ∉ i :: rest := by
          intro h
          rcases List.mem_cons.1 h with h1 | h1
          · exact hir h1.symm
          · exact hmem h1
        rw [if_neg hmem, if_neg hrow, if_neg hnot]
        rfl

theorem row_content_adjust (t : Curses) (sent : List Message) (r : Nat)
    (hr : r < bottom_row t) (hheld : bottom_row t ≤ sent.length) (hcap : sent.length ≤ 100) :
    row_content (adjust_ops t sent) r = (keep_last (bottom_row t) sent)[r]? := by
  unfold adjust_ops
  have hge : sent.length ≥ bottom_row t := hheld
  rw [if_pos hge, row_content_append, row_content_separator, Option.none_or,
    row_content_repaint t sent r hr (by omega) _
      (fun i hi => by rw [List.mem_range'_1] at hi; omega)]
  have hmem : bottom_row t - r ∈ List.range' 1 (bottom_row t) := by
    rw [List.mem_range'_1]; omega
  rw [if_pos hmem]
  unfold keep_last
  have hidx : sent.length - (bottom_row t - r) < sent.length := by omega
  rw [List.getElem?_drop, List.getD_eq_getElem?_getD, List.getElem?_eq_getElem hidx]
  have : sent.length - bottom_row t + r = sent.length - (bottom_row t - r) := by omega
  rw [this, List.getElem?_eq_getElem hidx]
  rfl

theorem print_line_nosave_eq (fuel : Nat) (t : Curses) (c : ConsoleInterface) (line : Int)
    (m : Message) (hyp : 3 ≤ t.LINES ∨ c._sent_messages.length < 2 ^ 64 - 3) :
    print_line (fuel + 2) t c line m false =
      .returned { c with
        stdscr := c.stdscr ++
          (if line ≥ (t.LINES : Int) - 3 then adjust_ops t c._sent_messages else []) ++
          [DrawOp.line (if line ≥ (t.LINES : Int) - 3 then (t.LINES : Int) - 3 else line) m] } := by
  rw [print_line_eq fuel t c line m false hyp]
  congr 1
  by_cases hl : line ≥ (t.LINES : Int) - 3
  · rw [if_pos hl, if_pos hl, if_pos hl]
    rfl
  · rw [if_neg hl, if_neg hl, if_neg hl, List.append_nil]
    rfl

/-- C19, as the code behaves. For every terminal height `LINES ≥ 4` and every scrollback
within its capacity that holds at least `LINES - 3` messages, a `print_line` call whose row
is at least `LINES - 3` performs a scroll before it saves its message: the rows 0 to
`LINES - 4` are repainted from the scrollback as it stands before the call, and afterwards
they show its most recent `LINES - 3` messages, one per row, in chronological order with the
oldest at the top; the separator is redrawn after them; then the message is saved (when
`save_msg` is set; below capacity it becomes the last scrollback entry) and row `LINES - 3`
is drawn last. -/
theorem print_line_scroll_repaints (fuel : Nat) (hfuel : 2 ≤ fuel) (t : Curses)
    (c : ConsoleInterface) (line : Int) (m : Message) (save_msg : Bool)
    (hlines : 4 ≤ t.LINES) (hheld : t.LINES - 3 ≤ c._sent_messages.length)
    (hcap : c._sent_messages.length ≤ MAX_MSG_BUFFER) (hrow : line ≥ (t.LINES : Int) - 3) :
    ∃ s drawn, print_line fuel t c line m save_msg = .returned s ∧
      s.stdscr = c.stdscr ++ adjust_ops t c._sent_messages ++
        [DrawOp.line ((t.LINES : Int) - 3) drawn] ∧
      adjust_ops t c._sent_messages =
        repaint_ops t c._sent_messages (List.range' 1 (t.LINES - 3)) ++
          [DrawOp.separator ((t.LINES : Int) - 2) t.COLS] ∧
      (∀ r : Nat, r < t.LINES - 3 →
        row_content s.stdscr r = (keep_last (t.LINES - 3) c._sent_messages)[r]? ∧
        (keep_last (t.LINES - 3) c._sent_messages)[r]? =
          c._sent_messages[c._sent_messages.length - (t.LINES - 3) + r]? ∧
        (row_content s.stdscr r).isSome = true) ∧
      s._sent_messages =
        (if save_msg then (c.save_message m)._sent_messages else c._sent_messages) ∧
      (save_msg = true → c._sent_messages.length < MAX_MSG_BUFFER →
        s._sent_messages = c._sent_messages ++ [m]) := by
  obtain ⟨k, rfl⟩ : ∃ k, fuel = k + 2 := ⟨fuel - 2, by omega⟩
  have hyp : 3 ≤ t.LINES ∨ c._sent_messages.length < 2 ^ 64 - 3 := Or.inl (by omega)
  have hb : bottom_row t = t.LINES - 3 := by
    unfold bottom_row; unfold MAX_MSG_BUFFER at hcap; omega
  have hadj : adjust_ops t c._sent_messages =
      repaint_ops t c._sent_messages (List.range' 1 (t.LINES - 3)) ++
        [DrawOp.separator ((t.LINES : Int) - 2) t.COLS] := by
    unfold adjust_ops
    rw [hb, if_pos (show c._sent_messages.length ≥ t.LINES - 3 from hheld)]
  have hrows : ∀ (drawn : Message) (r : Nat), r < t.LINES - 3 →
      row_content (c.stdscr ++ adjust_ops t c._sent_messages ++
        [DrawOp.line ((t.LINES : Int) - 3) drawn]) r =
        (keep_last (t.LINES - 3) c._sent_messages)[r]? ∧
      (keep_last (t.LINES - 3) c._sent_messages)[r]? =
        c._sent_messages[c._sent_messages.length - (t.LINES - 3) + r]? ∧
      (row_content (c.stdscr ++ adjust_ops t c._sent_messages ++
        [DrawOp.line ((t.LINES : Int) - 3) drawn]) r).isSome = true := by
    intro drawn r hr
    have hne : ¬ ((t.LINES : Int) - 3 = (r : Int)) := by omega
    have h1 : row_content (c.stdscr ++ adjust_ops t c._sent_messages ++
        [DrawOp.line ((t.LINES : Int) - 3) drawn]) r =
        (keep_last (t.LINES - 3) c._sent_messages)[r]? := by
      rw [row_content_append, row_content_line, if_neg hne, Option.none_or,
        row_content_append,
        row_content_adjust t c._sent_messages r (by rw [hb]; exact hr) (by rw [hb]; exact hheld)
          hcap, hb]
      have hsome : ((keep_last (t.LINES - 3) c._sent_messages)[r]?).isSome = true := by
        rw [Option.isSome_iff_exists]
        refine ⟨_, List.getElem?_eq_getElem ?_⟩
        unfold keep_last
        rw [List.length_drop]
        omega
      obtain ⟨v, hv⟩ := Option.isSome_iff_exists.1 hsome
      rw [hv]
      rfl
    have h2 : (keep_last (t.LINES - 3) c._sent_messages)[r]? =
        c._sent_messages[c._sent_messages.length - (t.LINES - 3) + r]? := by
      unfold keep_last
      rw [List.getElem?_drop]
    refine ⟨h1, h2, ?_⟩
    rw [h1, h2, Option.isSome_iff_exists]
    exact ⟨_, List.getElem?_eq_getElem (by omega)⟩
  cases save_msg with
  | true =>
    refine ⟨_, Message.empty, print_line_save_eq k t c line m hyp, ?_, hadj, ?_, rfl, ?_⟩
    · show c.stdscr ++ (if line ≥ (t.LINES : Int) - 3 then adjust_ops t c._sent_messages
        else []) ++ [DrawOp.line (if line ≥ (t.LINES : Int) - 3 then (t.LINES : Int) - 3
          else line) Message.empty] = _
      rw [if_pos hrow, if_pos hrow]
    · intro r hr
      show _ ∧ _ ∧ (row_content (c.stdscr ++ (if line ≥ (t.LINES : Int) - 3 then
        adjust_ops t c._sent_messages else []) ++ [DrawOp.line (if line ≥ (t.LINES : Int) - 3
          then (t.LINES : Int) - 3 else line) Message.empty]) r).isSome = true
      show row_content (c.stdscr ++ (if line ≥ (t.LINES : Int) - 3 then
        adjust_ops t c._sent_messages else []) ++ [DrawOp.line (if line ≥ (t.LINES : Int) - 3
          then (t.LINES : Int) - 3 else line) Message.empty]) r = _ ∧ _ ∧ _
      rw [if_pos hrow, if_pos hrow]
      exact hrows Message.empty r hr
    · intro _ hlt
      show (c.save_message m)._sent_messages = _
      rw [save_message_keep_last c m (Nat.le_of_lt hlt),
        keep_last_of_length_le _ _ (by simp; omega)]
  | false =>
    refine ⟨_, m, print_line_nosave_eq k t c line m hyp, ?_, hadj, ?_, rfl, ?_⟩
    · show c.stdscr ++ (if line ≥ (t.LINES : Int) - 3 then adjust_ops t c._sent_messages
        else []) ++ [DrawOp.line (if line ≥ (t.LINES : Int) - 3 then (t.LINES : Int) - 3
          else line) m] = _
      rw [if_pos hrow, if_pos hrow]
    · intro r hr
      show row_content (c.stdscr ++ (if line ≥ (t.LINES : Int) - 3 then
        adjust_ops t c._sent_messages else []) ++ [DrawOp.line (if line ≥ (t.LINES : Int) - 3
          then (t.LINES : Int) - 3 else line) m]) r = _ ∧ _ ∧ _
      rw [if_pos hrow, if_pos hrow]
      exact hrows m r hr
    · intro h; cases h

/-- Witness of the amended C19: message 4 printed on row 4 of a terminal of 6 lines whose
scrollback holds messages 0 to 3; rows 0 to 2 then show messages 1 to 3. -/
theorem print_line_scroll_repaints_witness :
    (4 : Nat) ≤ (⟨6, 80⟩ : Curses).LINES ∧
    (⟨6, 80⟩ : Curses).LINES - 3 ≤ small_console._sent_messages.length ∧
    small_console._sent_messages.length ≤ MAX_MSG_BUFFER ∧
    ∃ s drawn, print_line 2 ⟨6, 80⟩ small_console 4 (numbered_message 4) true = .returned s ∧
      s.stdscr = small_console.stdscr ++ adjust_ops ⟨6, 80⟩ small_console._sent_messages ++
        [DrawOp.line 3 drawn] ∧
      row_content s.stdscr 0 = some (numbered_message 1) ∧
      row_content s.stdscr 1 = some (numbered_message 2) ∧
      row_content s.stdscr 2 = some (numbered_message 3) ∧
      s._sent_messages = (List.range 5).map numbered_message := by
  obtain ⟨s, drawn, h1, h2, _, h4, _, h6⟩ :=
    print_line_scroll_repaints 2 (by decide) ⟨6, 80⟩ small_console 4 (numbered_message 4) true
      (by decide) (by decide) (by decide) (by decide)
  refine ⟨by decide, by decide, by decide, s, drawn, h1, h2, ?_, ?_, ?_, ?_⟩
  · exact ((h4 0 (by decide)).1).trans (by decide)
  · exact ((h4 1 (by decide)).1).trans (by decide)
  · exact ((h4 2 (by decide)).1).trans (by decide)
  · rw [h6 rfl (by decide)]; decide

set_option maxRecDepth 100000 in
/-- C19 fails as stated. On a terminal of 103 lines, rows 0 to 100 lie above the two
reserved rows. After 100 messages the scrollback holds the messages numbered 0 to 99, which
is `LINES - 3` messages. The call `print_line(100, message 100)` scrolls: it repaints rows 0
to 99 from that scrollback, and only then saves message 100, which evicts message 0. Row 0
therefore shows message 0, which is no longer in the updated scrollback; that scrollback
holds 100 messages, not the `LINES - 2 = 101` the claim puts on the rows. -/
theorem scroll_rows_not_latest_of_scrollback :
    edge_before.map (fun c => c._sent_messages) =
      some ((List.range 100).map numbered_message) ∧
    edge_after.map (fun s => s._sent_messages) =
      some ((List.range' 1 100).map numbered_message) ∧
    edge_after.bind (fun s => row_content s.stdscr 0) = some (numbered_message 0) ∧
    edge_after.map (fun s => decide (numbered_message 0 ∈ s._sent_messages)) = some false ∧
    (∀ s, edge_after = some s → ¬ spec_rows_show_latest ⟨103, 80⟩ s) := by
  have h2 : edge_after.map (fun s => s._sent_messages) =
      some ((List.range' 1 100).map numbered_message) := by decide
  have h3 : edge_after.bind (fun s => row_content s.stdscr 0) = some (numbered_message 0) := by
    decide
  refine ⟨by decide, h2, h3, by decide, ?_⟩
  intro s hs hspec
  rw [hs] at h2 h3
  simp only [Option.map_some', Option.some.injEq, Option.some_bind] at h2 h3
  have h0 := hspec 0 (by decide)
  rw [h2] at h0
  have h0' : row_content s.stdscr 0 = some (numbered_message 0) := h3
  have hk : (keep_last ((⟨103, 80⟩ : Curses).LINES - 2)
      ((List.range' 1 100).map numbered_message))[0]? = some (numbered_message 1) := by decide
  have h0'' : row_content s.stdscr ((0 : Nat) : Int) = some (numbered_message 0) := h0'
  rw [h0'', hk] at h0
  exact absurd h0 (by decide)

/-! ### C22: the chunks of a `Message` -/

theorem add_chunk_eq (m : Message) (msg : Str) (colour : Int) :
    m.add_chunk msg colour =
      { _strs := m._strs ++ [msg], _colour_pairs := m._colour_pairs ++ [stored_colour colour] } := by
  unfold Message.add_chunk stored_colour
  split <;> rfl

theorem foldl_add_chunk (chunks : List (Str × Int)) :
    ∀ m : Message,
      (chunks.foldl (fun m chunk => m.add_chunk chunk.1 chunk.2) m)._strs =
        m._strs ++ chunks.map Prod.fst ∧
      (chunks.foldl (fun m chunk => m.add_chunk chunk.1 chunk.2) m)._colour_pairs =
        m._colour_pairs ++ chunks.map (fun chunk => stored_colour chunk.2) := by
  induction chunks with
  | nil => intro m; simp
  | cons chunk rest ih =>
    intro m
    have h := ih (m.add_chunk chunk.1 chunk.2)
    rw [add_chunk_eq] at h
    simp only [List.foldl_cons, List.map_cons]
    rw [add_chunk_eq]
    refine ⟨by rw [h.1]; simp, by rw [h.2]; simp⟩

theorem stored_colour_range (colour : Int) :
    stored_colour colour = NORMAL ∨ stored_colour colour = HIGHLIGHT ∨
    stored_colour colour = ERROR ∨ stored_colour colour = TIMESTAMP ∨
    stored_colour colour = INPUT := by
  unfold stored_colour COLOURS_COUNT NORMAL HIGHLIGHT ERROR TIMESTAMP INPUT
  split
  · exact Or.inl rfl
  · omega

/-- C22. For every Message built by a sequence of `add_chunk` calls, the number of text
chunks equals the number of style tags, the texts are the texts given, in the order of the
calls, the style tag stored with each text is the colour given with it when that is one of
normal, highlight, error, timestamp, input, and normal when it is outside that range; so
every stored tag is one of the five. -/
theorem add_chunk_keeps_chunks_paired (chunks : List (Str × Int)) :
    (Message.build chunks)._strs.length = (Message.build chunks)._colour_pairs.length ∧
    (Message.build chunks)._strs = chunks.map Prod.fst ∧
    (Message.build chunks)._colour_pairs =
      chunks.map (fun chunk =>
        if NORMAL ≤ chunk.2 ∧ chunk.2 < COLOURS_COUNT then chunk.2 else NORMAL) ∧
    (∀ tag ∈ (Message.build chunks)._colour_pairs,
      tag = NORMAL ∨ tag = HIGHLIGHT ∨ tag = ERROR ∨ tag = TIMESTAMP ∨ tag = INPUT) ∧
    (∀ (m : Message) (msg : Str) (colour : Int),
      (colour < NORMAL ∨ COLOURS_COUNT ≤ colour) →
      (m.add_chunk msg colour)._colour_pairs = m._colour_pairs ++ [NORMAL]) := by
  have h := foldl_add_chunk chunks Message.empty
  have hs : (Message.build chunks)._strs = chunks.map Prod.fst := by
    simpa [Message.empty] using h.1
  have hc : (Message.build chunks)._colour_pairs =
      chunks.map (fun chunk => stored_colour chunk.2) := by
    simpa [Message.empty] using h.2
  refine ⟨by rw [hs, hc]; simp, hs, ?_, ?_, ?_⟩
  · rw [hc]
    apply List.map_congr_left
    intro chunk _
    unfold stored_colour
    by_cases hr : NORMAL ≤ chunk.2 ∧ chunk.2 < COLOURS_COUNT
    · rw [if_pos hr, if_neg (by omega)]
    · rw [if_neg hr, if_pos (by omega)]
  · intro tag htag
    rw [hc, List.mem_map] at htag
    obtain ⟨chunk, _, rfl⟩ := htag
    exact stored_colour_range chunk.2
  · intro m msg colour hout
    rw [add_chunk_eq]
    unfold stored_colour
    rw [if_pos (by omega)]

/-- Witness of C22: three chunks given with the colours 2 (error), 7 and -1. -/
theorem add_chunk_keeps_chunks_paired_witness :
    ((7 : Int) < NORMAL ∨ COLOURS_COUNT ≤ (7 : Int)) ∧
    (Message.build [("a".toList, 2), ("b".toList, 7), ("c".toList, -1)])._strs =
      ["a".toList, "b".toList, "c".toList] ∧
    (Message.build [("a".toList, 2), ("b".toList, 7), ("c".toList, -1)])._colour_pairs =
      [ERROR, NORMAL, NORMAL] ∧
    (Message.empty.add_chunk "b".toList 7)._colour_pairs = Message.empty._colour_pairs ++ [NORMAL] :=
  ⟨by decide,
   (add_chunk_keeps_chunks_paired [("a".toList, 2), ("b".toList, 7), ("c".toList, -1)]).2.1,
   ((add_chunk_keeps_chunks_paired
      [("a".toList, 2), ("b".toList, 7), ("c".toList, -1)]).2.2.1).trans (by decide),
   (add_chunk_keeps_chunks_paired []).2.2.2.2 Message.empty "b".toList 7 (by decide)⟩

/-! ### C21: the order of the steps of a submission -/

theorem execute_message_steps (fuel : Nat) (t : Curses) (c : ConsoleInterface)
    (now_echo now_reply : Str) :
    c.execute_message fuel t now_echo now_reply =
      (c.state_at_dispatch fuel t now_echo).andThen (fun c1 =>
        (c1.handle_command now_reply c._input_buffer).andThen (fun c2 =>
          .returned (c2.reset_input t))) := rfl

theorem reset_input_fields (t : Curses) (c : ConsoleInterface) :
    (c.reset_input t)._input_buffer = [] ∧ (c.reset_input t)._current_index = 0 :=
  ⟨rfl, rfl⟩

/-- C21, as the code behaves. For every buffer state (on a console whose scrollback is
within its capacity), submission on enter runs as the sequence: snapshot the buffer, record
the echo line, dispatch the snapshot, clear the buffer. At the moment the snapshot is handed
to `handle_command`, and hence while the command's handler runs, the input buffer still holds
the submitted text and the cursor is where it was: if the handler throws, that is the state
the exception leaves behind. Buffer and cursor are reset to empty and 0 only after
`handle_command` has returned. -/
theorem execute_message_dispatches_before_clear (fuel : Nat) (hfuel : 2 ≤ fuel) (t : Curses)
    (c : ConsoleInterface) (now_echo now_reply : Str)
    (hcap : c._sent_messages.length ≤ MAX_MSG_BUFFER) :
    ∃ c1, c.state_at_dispatch fuel t now_echo = .returned c1 ∧
      c1._input_buffer = c._input_buffer ∧ c1._current_index = c._current_index ∧
      c.execute_message fuel t now_echo now_reply =
        (c1.handle_command now_reply c._input_buffer).andThen (fun c2 =>
          .returned (c2.reset_input t)) ∧
      (∀ what s, c1.handle_command now_reply c._input_buffer = .thrown what s →
        c.execute_message fuel t now_echo now_reply = .thrown what s ∧
        s._input_buffer = c._input_buffer ∧ s._current_index = c._current_index) ∧
      (∀ c2, c1.handle_command now_reply c._input_buffer = .returned c2 →
        c2._input_buffer = c._input_buffer ∧ c2._current_index = c._current_index ∧
        c.execute_message fuel t now_echo now_reply = .returned (c2.reset_input t) ∧
        (c2.reset_input t)._input_buffer = [] ∧ (c2.reset_input t)._current_index = 0) := by
  have hyp : 3 ≤ t.LINES ∨ c._sent_messages.length < 2 ^ 64 - 3 := by
    right; unfold MAX_MSG_BUFFER at hcap; omega
  obtain ⟨c1, h1, _, hbuf, hidx, _, _, _⟩ :=
    print_line_save_fields fuel hfuel t c (to_int c._sent_messages.length)
      (echo_message now_echo c._input_buffer) hyp
  have hstate : c.state_at_dispatch fuel t now_echo = .returned c1 := h1
  have hexec : c.execute_message fuel t now_echo now_reply =
      (c1.handle_command now_reply c._input_buffer).andThen (fun c2 =>
        .returned (c2.reset_input t)) := by
    rw [execute_message_steps, hstate]
    rfl
  have hframe := handle_command_frame c1 now_reply c._input_buffer
  refine ⟨c1, hstate, hbuf, hidx, hexec, ?_, ?_⟩
  · intro what s hthrown
    rw [hthrown] at hframe
    refine ⟨by rw [hexec, hthrown]; rfl, ?_, ?_⟩
    · rw [← hbuf]; exact hframe.1
    · rw [← hidx]; exact hframe.2.1
  · intro c2 hret
    rw [hret] at hframe
    refine ⟨?_, ?_, by rw [hexec, hret]; rfl, rfl, rfl⟩
    · rw [← hbuf]; exact hframe.1
    · rw [← hidx]; exact hframe.2.1

/-- Witness of the amended C21: enter pressed on the sample console with `boom` in the
buffer; the handler throws while the buffer still holds `boom`. -/
theorem execute_message_dispatches_before_clear_witness :
    boom_console._sent_messages.length ≤ MAX_MSG_BUFFER ∧
    ∃ c1, boom_console.state_at_dispatch 2 ⟨24, 80⟩ "12:00".toList = .returned c1 ∧
      c1._input_buffer = "boom".toList ∧ c1._current_index = 4 ∧
      c1.handle_command "12:01".toList "boom".toList =
        .thrown "handler failed".toList
          { c1 with invoked := c1.invoked ++ [("boom".toList, [])] } ∧
      boom_console.execute_message 2 ⟨24, 80⟩ "12:00".toList "12:01".toList =
        .thrown "handler failed".toList
          { c1 with invoked := c1.invoked ++ [("boom".toList, [])] } := by
  obtain ⟨c1, h1, h2, h3, _, h5, _⟩ :=
    execute_message_dispatches_before_clear 2 (by decide) ⟨24, 80⟩ boom_console
      "12:00".toList "12:01".toList (by decide)
  have hc1 : c1 = { boom_console with
      _sent_messages := [echo_message "12:00".toList "boom".toList]
      stdscr := boom_console.stdscr ++ [DrawOp.line 0 Message.empty] } := by
    have e : boom_console.state_at_dispatch 2 ⟨24, 80⟩ "12:00".toList =
        .returned { boom_console with
          _sent_messages := [echo_message "12:00".toList "boom".toList]
          stdscr := boom_console.stdscr ++ [DrawOp.line 0 Message.empty] } := rfl
    rw [e] at h1
    cases h1
    rfl
  have hthrown : c1.handle_command "12:01".toList "boom".toList =
      .thrown "handler failed".toList
        { c1 with invoked := c1.invoked ++ [("boom".toList, [])] } := by
    rw [hc1]; rfl
  exact ⟨by decide, c1, h1, h2, h3, hthrown, (h5 _ _ hthrown).1⟩

/-- C21 fails as stated. On the sample console with `echo hello` in the buffer and the cursor
at 10, the state in which `execute_message` calls `handle_command` still has `echo hello` in
the buffer and the cursor at 10. With `boom` in the buffer, whose handler throws, the
exception leaves `execute_message` with `boom` still in the buffer and the cursor at 4: the
buffer was not cleared before the dispatch. -/
theorem buffer_not_cleared_at_dispatch :
    (∃ c1, echo_console.state_at_dispatch 2 ⟨24, 80⟩ "12:00".toList = .returned c1 ∧
      c1._input_buffer = "echo hello".toList ∧ c1._current_index = 10 ∧
      echo_console.execute_message 2 ⟨24, 80⟩ "12:00".toList "12:01".toList =
        (c1.handle_command "12:01".toList "echo hello".toList).andThen (fun c2 =>
          .returned (c2.reset_input ⟨24, 80⟩))) ∧
    (∃ s, boom_console.execute_message 2 ⟨24, 80⟩ "12:00".toList "12:01".toList =
        .thrown "handler failed".toList s ∧
      s._input_buffer = "boom".toList ∧ s._current_index = 4 ∧
      s.invoked = [("boom".toList, [])]) :=
  ⟨⟨_, rfl, rfl, rfl, rfl⟩, ⟨_, rfl, rfl, rfl, rfl⟩⟩

/-! ### C23: the rows `print_line` and `adjust_lines` draw on -/

theorem mem_repaint_ops (t : Curses) (sent : List Message) (is : List Nat) (r : Int)
    (m : Message) (h : DrawOp.line r m ∈ repaint_ops t sent is) :
    ∃ i ∈ is, r = to_int (bottom_row t - i) := by
  unfold repaint_ops at h
  rw [List.mem_map] at h
  obtain ⟨i, hi, he⟩ := h
  injection he with h1 h2
  exact ⟨i, hi, h1.symm⟩

theorem mem_adjust_ops_row (t : Curses) (hlines : 3 ≤ t.LINES) (sent : List Message) (r : Int)
    (m : Message) (h : DrawOp.line r m ∈ adjust_ops t sent) : r < (t.LINES : Int) - 3 := by
  unfold adjust_ops at h
  rw [List.mem_append] at h
  rcases h with h | h
  · by_cases hge : sent.length ≥ bottom_row t
    · rw [if_pos hge] at h
      obtain ⟨i, hi, hr⟩ := mem_repaint_ops t sent _ r m h
      have hi2 := List.mem_range'_1.1 hi
      rw [hr]
      exact to_int_bottom_lt t sent.length i hi2.1 (by omega) hge (Or.inl hlines)
    · rw [if_neg hge] at h
      cases h
  · rw [List.mem_singleton] at h
    injection h

/-- On a terminal of at least 3 lines, a `print_line` call returns with fuel 2, that is,
with one level of calls below it. Its last drawing call is on row `min(line, LINES - 3)`; the
rows repainted by the scroll, if there is one, lie below `LINES - 3`; so every row drawn on
is at most `LINES - 3`, neither the separator row nor the input row. The calls the scroll
makes pass rows below `LINES - 3` and so do not scroll again. -/
theorem print_line_rows (fuel : Nat) (hfuel : 2 ≤ fuel) (t : Curses) (hlines : 3 ≤ t.LINES)
    (c : ConsoleInterface) (line : Int) (m : Message) (save_msg : Bool) :
    ∃ s, print_line fuel t c line m save_msg = .returned s ∧
      s.stdscr = c.stdscr ++
        (if line ≥ (t.LINES : Int) - 3 then adjust_ops t c._sent_messages else []) ++
        [DrawOp.line (min line ((t.LINES : Int) - 3))
          (if save_msg then Message.empty else m)] ∧
      (∀ r output, DrawOp.line r output ∈ adjust_ops t c._sent_messages →
        r < (t.LINES : Int) - 3) ∧
      (∀ r output, DrawOp.line r output ∈
          (if line ≥ (t.LINES : Int) - 3 then adjust_ops t c._sent_messages else []) ++
            [DrawOp.line (min line ((t.LINES : Int) - 3))
              (if save_msg then Message.empty else m)] →
        r ≤ (t.LINES : Int) - 3 ∧ r ≠ (t.LINES : Int) - 2 ∧ r ≠ (t.LINES : Int) - 1) ∧
      (∀ i ∈ List.range' 1 (bottom_row t), bottom_row t ≤ c._sent_messages.length →
        ∀ c1 output, print_line 1 t c1 (to_int (bottom_row t - i)) output false =
          .returned { c1 with stdscr := c1.stdscr ++
            [DrawOp.line (to_int (bottom_row t - i)) output] }) := by
  obtain ⟨k, rfl⟩ : ∃ k, fuel = k + 2 := ⟨fuel - 2, by omega⟩
  have hyp : 3 ≤ t.LINES ∨ c._sent_messages.length < 2 ^ 64 - 3 := Or.inl hlines
  have hmin : min line ((t.LINES : Int) - 3) =
      if line ≥ (t.LINES : Int) - 3 then (t.LINES : Int) - 3 else line := by
    split
    · exact min_eq_right (by omega)
    · exact min_eq_left (by omega)
  have hadj := mem_adjust_ops_row t hlines c._sent_messages
  have hrows : ∀ r output, DrawOp.line r output ∈
      (if line ≥ (t.LINES : Int) - 3 then adjust_ops t c._sent_messages else []) ++
        [DrawOp.line (min line ((t.LINES : Int) - 3))
          (if save_msg then Message.empty else m)] →
      r ≤ (t.LINES : Int) - 3 ∧ r ≠ (t.LINES : Int) - 2 ∧ r ≠ (t.LINES : Int) - 1 := by
    intro r output hmem
    rw [List.mem_append] at hmem
    have hle : r ≤ (t.LINES : Int) - 3 := by
      rcases hmem with h | h
      · by_cases hl : line ≥ (t.LINES : Int) - 3
        · rw [if_pos hl] at h
          exact Int.le_of_lt (hadj r output h)
        · rw [if_neg hl] at h
          cases h
      · rw [List.mem_singleton] at h
        injection h with h1 h2
        rw [h1]
        exact min_le_right _ _
    exact ⟨hle, by omega, by omega⟩
  have hinner : ∀ i ∈ List.range' 1 (bottom_row t), bottom_row t ≤ c._sent_messages.length →
      ∀ (c1 : ConsoleInterface) (output : Message),
        print_line 1 t c1 (to_int (bottom_row t - i)) output false =
          .returned { c1 with stdscr := c1.stdscr ++
            [DrawOp.line (to_int (bottom_row t - i)) output] } := by
    intro i hi hheld c1 output
    have hi2 := List.mem_range'_1.1 hi
    exact print_line_below 0 t c1 _ output
      (to_int_bottom_lt t c._sent_messages.length i hi2.1 (by omega) hheld hyp)
  cases save_msg with
  | true =>
    refine ⟨_, print_line_save_eq k t c line m hyp, ?_, hadj, hrows, hinner⟩
    rw [hmin]
    rfl
  | false =>
    refine ⟨_, print_line_nosave_eq k t c line m hyp, ?_, hadj, hrows, hinner⟩
    rw [hmin]
    rfl

/-- C23, at a failing input. On the console as constructed (24 lines), the call
`print_line(0, one)` with the default `save_msg = true` makes its drawing call on row
`min(0, 21) = 0`, but what it draws there is the message it has just moved into the
scrollback, which is empty: row 0 is cleared and `one` is not drawn on it. In the same way,
on a terminal of 6 lines whose scrollback holds messages 0 to 3, `print_line(4, message 4)`
repaints rows 0 to 2 with messages 1 to 3 and then draws the empty message on row
`min(4, 3) = 3` instead of message 4. -/
theorem print_line_draws_moved_from_message :
    (∃ s, print_line 2 ⟨24, 80⟩ fresh_console 0 (plain_message "one".toList) true =
        .returned s ∧
      s._sent_messages = [plain_message "one".toList] ∧
      s.stdscr = fresh_console.stdscr ++ [DrawOp.line (min 0 (24 - 3)) Message.empty] ∧
      row_content s.stdscr 0 = some Message.empty ∧
      row_content s.stdscr 0 ≠ some (plain_message "one".toList)) ∧
    (∃ s, print_line 2 ⟨6, 80⟩ small_console 4 (numbered_message 4) true = .returned s ∧
      s._sent_messages = (List.range 5).map numbered_message ∧
      row_content s.stdscr 0 = some (numbered_message 1) ∧
      row_content s.stdscr 1 = some (numbered_message 2) ∧
      row_content s.stdscr 2 = some (numbered_message 3) ∧
      row_content s.stdscr (min 4 (6 - 3)) = some Message.empty ∧
      row_content s.stdscr (min 4 (6 - 3)) ≠ some (numbered_message 4)) := by
  refine ⟨⟨_, rfl, rfl, rfl, by decide, by decide⟩,
    ⟨_, rfl, by decide, by decide, by decide, by decide, by decide, by decide⟩⟩

/-! ### C6: a handler's exception leaves `handle_command`, `execute_message`, `handle_input` -/

theorem run_callback_of_commands (c c1 : ConsoleInterface) (callback : Callback) (arg : Str)
    (h : c1._commands = c._commands) :
    c1.run_callback callback arg = c.run_callback callback arg := by
  cases callback with
  | host f => rfl
  | commands => simp only [run_callback, commands_lambda, h]
  | help => simp only [run_callback, help_lambda, h]

theorem dispatch_known_error (c : ConsoleInterface) (now name arg what : Str) (k : Command)
    (hk : umap_find c._commands name = some k)
    (hr : c.run_callback k._callback arg = .error what) :
    c.dispatch now name arg =
      .thrown what { c with invoked := c.invoked ++ [(name, arg)] } := by
  unfold dispatch
  simp only [hk, run_callback_invoked, hr]

theorem handle_input_enter (fuel : Nat) (t : Curses) (c : ConsoleInterface)
    (now_echo now_reply : Str) :
    c.handle_input fuel t now_echo now_reply ENTER =
      (c.execute_message fuel t now_echo now_reply).andThen
        (fun c1 => .returned (print_input_buffer t c1)) := by
  unfold handle_input
  have h1 : ¬ (ENTER = LEFT ∨ ENTER = RIGHT ∨ ENTER = UP ∨ ENTER = DOWN) := by decide
  have h2 : ¬ (ENTER = BACKSPACE) := by decide
  simp only [h1, h2, if_false, if_true]

/-- C6, as the code behaves. When the handler of a registered name throws, `handle_command`
has no handler of its own for the exception: the exception leaves `handle_command` after the
one invocation of the handler, and nothing has been queued. When the line was submitted with
enter (the line is the content of the input buffer, on a console whose scrollback is within
its capacity), the same exception leaves `execute_message` and `handle_input` as well, again
with nothing queued, and the input buffer is left uncleared. -/
theorem handle_command_handler_exception (c : ConsoleInterface) (now command : Str)
    (k : Command) (what : Str)
    (hknown : umap_find c._commands (command.takeWhile (fun x => x != ' ')) = some k)
    (hthrows : c.run_callback k._callback ((command.dropWhile (fun x => x != ' ')).drop 1) =
      .error what) :
    (∃ s, c.handle_command now command = .thrown what s ∧
      s._message_queue = c._message_queue ∧
      s.invoked = c.invoked ++
        [(command.takeWhile (fun x => x != ' '),
          (command.dropWhile (fun x => x != ' ')).drop 1)]) ∧
    (∀ (fuel : Nat) (t : Curses) (now_echo : Str), 2 ≤ fuel →
      c._sent_messages.length ≤ MAX_MSG_BUFFER → c._input_buffer = command →
      ∃ s, c.execute_message fuel t now_echo now = .thrown what s ∧
        c.handle_input fuel t now_echo now ENTER = .thrown what s ∧
        s._message_queue = c._message_queue ∧
        s.invoked = c.invoked ++
          [(command.takeWhile (fun x => x != ' '),
            (command.dropWhile (fun x => x != ' ')).drop 1)] ∧
        s._input_buffer = command ∧ s._current_index = c._current_index) := by
  constructor
  · rw [handle_command_eq_dispatch,
      dispatch_known_error c now _ _ what k hknown hthrows]
    exact ⟨_, rfl, rfl, rfl⟩
  · intro fuel t now_echo hfuel hcap hline
    have hyp : 3 ≤ t.LINES ∨ c._sent_messages.length < 2 ^ 64 - 3 := by
      right; unfold MAX_MSG_BUFFER at hcap; omega
    obtain ⟨c1, h1, _, hbuf, hidx, hq, hcmds, hinv⟩ :=
      print_line_save_fields fuel hfuel t c (to_int c._sent_messages.length)
        (echo_message now_echo c._input_buffer) hyp
    have hk1 : umap_find c1._commands (command.takeWhile (fun x => x != ' ')) = some k := by
      rw [hcmds]; exact hknown
    have hr1 : c1.run_callback k._callback ((command.dropWhile (fun x => x != ' ')).drop 1) =
        .error what := by
      rw [run_callback_of_commands c c1 _ _ hcmds]; exact hthrows
    have hexec : c.execute_message fuel t now_echo now =
        .thrown what { c1 with invoked := c1.invoked ++
          [(command.takeWhile (fun x => x != ' '),
            (command.dropWhile (fun x => x != ' ')).drop 1)] } := by
      have hstep : c.execute_message fuel t now_echo now =
          (c1.handle_command now c._input_buffer).andThen (fun c2 =>
            .returned (print_input_buffer t
              { c2 with _input_buffer := [], _current_index := 0 })) := by
        unfold execute_message
        dsimp only
        unfold echo_message at h1
        rw [h1]
        rfl
      rw [hstep, hline, handle_command_eq_dispatch,
        dispatch_known_error c1 now _ _ what k hk1 hr1]
      rfl
    refine ⟨_, hexec, ?_, ?_, ?_, ?_, ?_⟩
    · rw [handle_input_enter, hexec]
      rfl
    · exact hq
    · show c1.invoked ++ _ = _
      rw [hinv]
    · show c1._input_buffer = command
      rw [hbuf, hline]
    · exact hidx

/-- Witness of the amended C6: the line `boom`, handled on the sample console and submitted
with enter from its input buffer. -/
theorem handle_command_handler_exception_witness :
    umap_find boom_console._commands ("boom".toList.takeWhile (fun x => x != ' ')) =
      some failing_command ∧
    boom_console._sent_messages.length ≤ MAX_MSG_BUFFER ∧
    boom_console._input_buffer = "boom".toList ∧
    (∃ s, boom_console.handle_command "12:01".toList "boom".toList =
        .thrown "handler failed".toList s ∧
      s._message_queue = boom_console._message_queue ∧
      s.invoked = boom_console.invoked ++
        [("boom".toList.takeWhile (fun x => x != ' '),
          ("boom".toList.dropWhile (fun x => x != ' ')).drop 1)]) ∧
    (∃ s, boom_console.execute_message 2 ⟨24, 80⟩ "12:00".toList "12:01".toList =
        .thrown "handler failed".toList s ∧
      boom_console.handle_input 2 ⟨24, 80⟩ "12:00".toList "12:01".toList ENTER =
        .thrown "handler failed".toList s ∧
      s._message_queue = boom_console._message_queue ∧
      s.invoked = boom_console.invoked ++
        [("boom".toList.takeWhile (fun x => x != ' '),
          ("boom".toList.dropWhile (fun x => x != ' ')).drop 1)] ∧
      s._input_buffer = "boom".toList ∧ s._current_index = boom_console._current_index) :=
  ⟨rfl, by decide, rfl,
   (handle_command_handler_exception boom_console "12:01".toList "boom".toList
      failing_command "handler failed".toList rfl rfl).1,
   (handle_command_handler_exception boom_console "12:01".toList "boom".toList
      failing_command "handler failed".toList rfl rfl).2 2 ⟨24, 80⟩ "12:00".toList
      (by decide) (by decide) rfl⟩

end FBCurses
